import Mathlib

/-!
Verification of the fire-engine dispatch simulation core.

The definitions below are a shallow embedding of the Python sources:
`fire_engine.py` (vehicle state machine), `fire_event.py` (incident value
object), `simulator_core.py` (dispatch engine and availability ranker) and
`utils.py` (feature encoder).  Machine floats and ints are modelled as `ℚ`
and `ℤ`/`ℕ`; the travel-time table is a partial lookup function; fallible
operations (Python list indexing, which raises `IndexError` when out of
range) return `Option`.  Layout: all definitions first, then the theorems.
-/

namespace FireDispatch

/-! ### Definitions: vehicle state machine (`fire_engine.py`) -/

/-- Vehicle status: the string field `status` of `FireEngine` ranges over
`'available'`, `'driving'`, `'cooling'`. -/
inductive EngineStatus
  | available
  | driving
  | cooling
deriving DecidableEq, Repr

/-- State of `FireEngine.__init__`, `fire_engine.py` lines 14-25. -/
structure FireEngine where
  id : ℤ
  home_node : ℚ × ℚ
  current_node : ℚ × ℚ
  status : EngineStatus
  remaining_time : ℚ
  cooldown_duration : ℚ
  dispatch_count : ℕ
  total_driving_time : ℚ
deriving DecidableEq, Repr

instance : Inhabited FireEngine :=
  ⟨⟨0, (0, 0), (0, 0), .available, 0, 0, 0, 0⟩⟩

/-- The constructor `FireEngine(engine_id, home_node, ..., cooldown_seconds)`:
the engine starts available at its home node with zeroed counters. -/
def FireEngine.mkEngine (engine_id : ℤ) (home_node : ℚ × ℚ) (cooldown_seconds : ℚ) :
    FireEngine :=
  { id := engine_id, home_node := home_node, current_node := home_node,
    status := .available, remaining_time := 0, cooldown_duration := cooldown_seconds,
    dispatch_count := 0, total_driving_time := 0 }

/-- `FireEngine.assign_to_event`, lines 27-48: the total active time is
reaction + driving + on-scene + driving (the return leg is charged at the
same driving time).  The engine becomes driving, moves to the event node,
and its counters are bumped. -/
def FireEngine.assign_to_event (e : FireEngine) (event_node : ℚ × ℚ)
    (driving_seconds reaction_seconds on_scene_seconds : ℚ) : FireEngine :=
  { e with
    status := .driving
    remaining_time := reaction_seconds + driving_seconds + on_scene_seconds + driving_seconds
    current_node := event_node
    dispatch_count := e.dispatch_count + 1
    total_driving_time := e.total_driving_time + driving_seconds }

/-- The state transition fired by `FireEngine.update` when a phase is
exhausted (lines 62-70 and lines 74-82, the two branches are identical):
driving becomes cooling with the cooldown duration remaining, cooling
becomes available back at the home node. -/
def FireEngine.transition (e : FireEngine) : FireEngine :=
  match e.status with
  | .driving => { e with status := .cooling, remaining_time := e.cooldown_duration }
  | .cooling => { e with
      status := .available
      remaining_time := 0
      current_node := e.home_node }
  | .available => e

/-- The `while` loop of `FireEngine.update`, lines 57-82.  Every iteration
that continues the loop (the `else` branch) fires one forward transition,
and at most two transitions (driving to cooling to available) can occur
before the guard `status != 'available'` fails, so a recursion budget of
two steps is exact; the budget-exhausted arm is unreachable from `update`. -/
def FireEngine.updateGo : ℕ → FireEngine → ℚ → FireEngine
  | fuel, e, time_left =>
    if 0 < time_left ∧ e.status ≠ .available then
      if time_left ≤ e.remaining_time then
        if e.remaining_time - time_left = 0 then
          FireEngine.transition { e with remaining_time := e.remaining_time - time_left }
        else { e with remaining_time := e.remaining_time - time_left }
      else
        match fuel with
        | 0 => e
        | fuel' + 1 => FireEngine.updateGo fuel' e.transition (time_left - e.remaining_time)
    else e

/-- `FireEngine.update(seconds)`, lines 50-82. -/
def FireEngine.update (e : FireEngine) (seconds : ℚ) : FireEngine :=
  FireEngine.updateGo 2 e seconds

/-- `FireEngine.is_available`, lines 84-86. -/
def FireEngine.is_available (e : FireEngine) : Bool :=
  e.status == .available

/-- `FireEngine.reset`, lines 94-100. -/
def FireEngine.reset (e : FireEngine) : FireEngine :=
  { e with
    status := .available
    remaining_time := 0
    current_node := e.home_node
    dispatch_count := 0
    total_driving_time := 0 }

/-- Normal form for an engine whose remaining time was rewritten. -/
def FireEngine.withRem (e : FireEngine) (rem : ℚ) : FireEngine :=
  { e with remaining_time := rem }

/-- Normal form for an engine put in the cooling phase. -/
def FireEngine.coolAt (e : FireEngine) (rem : ℚ) : FireEngine :=
  { e with status := .cooling, remaining_time := rem }

/-- Normal form for an engine returned to availability at home. -/
def FireEngine.toAvailable (e : FireEngine) : FireEngine :=
  { e with
    status := .available
    remaining_time := 0
    current_node := e.home_node }

/-- Remaining busy time until the vehicle next becomes available:
remaining plus the pending cooldown while driving, remaining while
cooling, zero when available. -/
def FireEngine.busyLeft (e : FireEngine) : ℚ :=
  match e.status with
  | .available => 0
  | .cooling => e.remaining_time
  | .driving => e.remaining_time + e.cooldown_duration

/-- Well-formedness of a vehicle state as produced by the simulation with a
positive cooldown and nonnegative assignment durations. -/
def EngineWF (e : FireEngine) : Prop :=
  0 < e.cooldown_duration ∧
  (e.status = .driving → 0 ≤ e.remaining_time) ∧
  (e.status = .cooling → 0 < e.remaining_time)

/-- Vehicle states reachable through the public operations of a vehicle
with cooldown `c`: construction, `reset`, `assign_to_event` with a nonzero
total active time, and arbitrary `update` calls. -/
inductive Reaches (c : ℚ) : FireEngine → Prop
  | init (engine_id : ℤ) (home : ℚ × ℚ) : Reaches c (FireEngine.mkEngine engine_id home c)
  | engineReset {e : FireEngine} : Reaches c e → Reaches c e.reset
  | engineAssign {e : FireEngine} (node : ℚ × ℚ) (d r o : ℚ) :
      Reaches c e → r + d + o + d ≠ 0 → Reaches c (e.assign_to_event node d r o)
  | engineUpdate {e : FireEngine} (t : ℚ) : Reaches c e → Reaches c (e.update t)

/-! ### Definitions: incidents (`fire_event.py`) -/

/-- State of `FireEvent.__init__`, `fire_event.py` lines 16-42.  Tabular
`extra` fields used by the core are lifted to typed fields; the optional
`dispatched_vehicle_count` override of the dispatch-count policy is
`required_override`.  Timestamps are integer seconds (`int(total_seconds)`
in `from_row`). -/
structure FireEvent where
  id : ℕ
  graph_node : ℚ × ℚ
  timestamp : ℤ
  risk_level : String
  incident_index : ℕ
  reaction_seconds : ℚ
  on_scene_seconds : ℚ
  required_override : Option ℕ
  assigned : Bool
  responder_id : Option ℤ
  response_time : Option ℚ
  true_driving_seconds : ℚ
deriving DecidableEq, Repr

/-- `FireEvent.mark_responded`, lines 44-49: single-slot overwrite of the
response fields. -/
def FireEvent.mark_responded (ev : FireEvent) (responder_id : ℤ) (response_time : ℚ) :
    FireEvent :=
  { ev with
    assigned := true
    responder_id := some responder_id
    response_time := some response_time
    true_driving_seconds := response_time }

/-- `FireEvent.is_high_risk`, lines 51-55: case- and whitespace-insensitive
match against the closed list of high-risk labels. -/
def FireEvent.is_high_risk (ev : FireEvent) : Bool :=
  let s := ev.risk_level.trim.toLower
  s == "high risk" || s == "secondary fires that attract a 20 minute-response time"

/-- `FireEvent.get_required_dispatch_count`, lines 57-58: the explicit
override if present, else 2 for high risk, else 1. -/
def FireEvent.get_required_dispatch_count (ev : FireEvent) : ℕ :=
  ev.required_override.getD (if ev.is_high_risk then 2 else 1)

/-! ### Definitions: dispatch engine (`simulator_core.py`) -/

/-- One entry of `Simulator.dispatch_history` (`simulator_core.py` lines
157-171 and 177-187).  Dictionary keys that are absent in some records
(`dispatched_vehicle_count`, `error`) or hold Python `None`
(`engine_id`, `station`, `response_time` in the error record) are
`Option` fields. -/
structure DispatchRecord where
  event_id : ℕ
  incident_index : ℕ
  engine_id : Option ℤ
  station : Option ℕ
  response_time : Option ℚ
  risk_level : String
  timestamp : ℤ
  dispatched_vehicle_count : Option ℕ
  error : Option String
deriving DecidableEq, Repr

/-- The `info` dictionary returned by `Simulator.step`: empty on an empty
queue, the error marker on total dispatch failure, or the success keys
`event_id` / `dispatched_engines` / `min_response_time` /
`response_times`. -/
inductive StepInfo
  | empty
  | err (msg : String)
  | ok (event_id : ℕ) (dispatched_engines : List ℤ) (min_response_time : ℚ)
      (response_times : List ℚ)
deriving DecidableEq, Repr

/-- The configuration keys read by the feature encoder (`utils.py`), with
the `config.get` defaults already applied at load time. -/
structure SimConfig where
  map_width : ℚ
  map_height : ℚ
  risk_map : List (String × ℕ)
  obs_engine_count : ℕ
  max_engines : ℚ
  obs_dim : ℕ
deriving Repr

/-- State of `Simulator` (`simulator_core.py` lines 13-50).  The
travel-time matrix `event_station_times` is a partial lookup keyed by
(incident index, station); `station_mapping` maps an engine id to its
station and is partial because `dict.get` returns `None` on unknown keys
(for example negative raw ids). -/
structure Simulator where
  config : SimConfig
  max_steps : ℕ
  engines : List FireEngine
  pending_events : List FireEvent
  finished_events : List FireEvent
  response_times : List ℚ
  time : ℤ
  step_count : ℕ
  dispatch_history : List DispatchRecord
  station_mapping : ℤ → Option ℕ
  event_station_times : ℕ → ℕ → Option ℚ

/-- Python list indexing `xs[i]` for a list of length `n`: nonnegative
indices below `n`, negative indices wrap from the end when `-i ≤ n`;
anything else raises `IndexError`, modelled as `none`. -/
def pyIdx (n : ℕ) (i : ℤ) : Option ℕ :=
  if 0 ≤ i then (if i < (n : ℤ) then some i.toNat else none)
  else (if -i ≤ (n : ℤ) then some (n - (-i).toNat) else none)

/-- The Dispatch Record built for a dispatched vehicle (`simulator_core.py`
lines 157-171): the required-count field is attached exactly when the
enumerate index `i` is 0. -/
def loopRecord (ev : FireEvent) (station : Option ℕ) (driving_seconds : ℚ)
    (i dc : ℕ) (engine_id : ℤ) : DispatchRecord :=
  { event_id := ev.id
    incident_index := ev.incident_index
    engine_id := some engine_id
    station := station
    response_time := some driving_seconds
    risk_level := ev.risk_level
    timestamp := ev.timestamp
    dispatched_vehicle_count := if i = 0 then some dc else none
    error := none }

/-- The mutable state threaded through the dispatch loop of
`Simulator.step` (lines 128-175): the fleet, the popped event (mutated by
`mark_responded`), and the per-step accumulator lists. -/
structure DispatchState where
  engines : List FireEngine
  ev : FireEvent
  rewards : List ℚ
  resp_times : List ℚ
  used_engines : List ℤ
  history : List DispatchRecord

/-- The `for i, engine_id in enumerate(engine_ids)` loop of
`Simulator.step`, lines 132-175.  `i` is the enumerate index over the
truncated id list.  Unavailable engines are skipped silently; for a
dispatched engine the travel time is looked up with fallback 3600.0, the
engine is assigned, the event marked responded, and a record appended —
carrying the required count exactly when `i = 0`.  An id that fails
Python indexing propagates `none` (`IndexError`). -/
def dispatchLoop (tbl : ℕ → ℕ → Option ℚ) (sm : ℤ → Option ℕ) (r o : ℚ) (dc : ℕ) :
    DispatchState → ℕ → List ℤ → Option DispatchState
  | st, _, [] => some st
  | st, i, engine_id :: restIds =>
    match pyIdx st.engines.length engine_id with
    | none => none
    | some pos =>
      match st.engines[pos]? with
      | none => none
      | some engine =>
        if engine.is_available then
          let station := sm engine_id
          let driving_seconds := (station.bind (tbl st.ev.incident_index)).getD 3600
          let record : DispatchRecord := loopRecord st.ev station driving_seconds i dc engine_id
          dispatchLoop tbl sm r o dc
            { engines := st.engines.set pos
                (engine.assign_to_event st.ev.graph_node driving_seconds r o)
              ev := st.ev.mark_responded engine_id driving_seconds
              rewards := st.rewards ++ [-(driving_seconds ^ 2)]
              resp_times := st.resp_times ++ [driving_seconds]
              used_engines := st.used_engines ++ [engine_id]
              history := st.history ++ [record] } (i + 1) restIds
        else dispatchLoop tbl sm r o dc st (i + 1) restIds

/-- Lines 114-119 of `Simulator.step`: when the clock is behind the head
incident, every engine is advanced by the delta. -/
def Simulator.advanceEngines (sim : Simulator) (ev : FireEvent) : List FireEngine :=
  if sim.time < ev.timestamp then
    sim.engines.map (fun e => e.update ((ev.timestamp - sim.time : ℤ) : ℚ))
  else sim.engines

/-- The error record appended when no engine was dispatched, lines
177-187: vehicle fields are null and the error marker is set. -/
def errRecord (ev : FireEvent) : DispatchRecord :=
  { event_id := ev.id
    incident_index := ev.incident_index
    engine_id := none
    station := none
    response_time := none
    risk_level := ev.risk_level
    timestamp := ev.timestamp
    dispatched_vehicle_count := none
    error := some "no_engines_dispatched" }

/-- Python `min` over a nonempty list (`min(response_times)`); the empty
case is unreachable at its call site. -/
def listMin : List ℚ → ℚ
  | [] => 0
  | x :: xs => xs.foldl min x

/-- The `(reward, done, info)` triple returned by `Simulator.step`
together with the successor state. -/
structure StepResult where
  reward : ℚ
  terminated : Bool
  info : StepInfo
  sim : Simulator

/-- `Simulator.step`, lines 105-202: increment the step counter; on an
empty queue return `(0.0, True, {})`; otherwise advance the clock and all
engines to the head incident's timestamp, pop it, truncate the selected
ids to the required dispatch count and run the dispatch loop.  If nothing
was dispatched, append the error record and return
`(-1000.0, False, error info)`; otherwise append the event to the
finished list, extend the response-time history and return the mean
reward with the termination flag `step_count >= max_steps or queue
empty`.  A `none` result models an uncaught `IndexError` from an invalid
selected id. -/
def Simulator.step (sim : Simulator) (engine_ids : List ℤ) : Option StepResult :=
  let sc := sim.step_count + 1
  match sim.pending_events with
  | [] => some { reward := 0, terminated := true, info := .empty,
                 sim := { sim with step_count := sc } }
  | ev :: rest =>
    let engines1 := sim.advanceEngines ev
    let time1 := if sim.time < ev.timestamp then ev.timestamp else sim.time
    let dc := ev.get_required_dispatch_count
    let ids := engine_ids.take dc
    match dispatchLoop sim.event_station_times sim.station_mapping
        ev.reaction_seconds ev.on_scene_seconds dc
        { engines := engines1, ev := ev, rewards := [], resp_times := [],
          used_engines := [], history := sim.dispatch_history } 0 ids with
    | none => none
    | some st =>
      if st.used_engines = [] then
        some { reward := -1000, terminated := false,
               info := .err "no_engines_dispatched",
               sim := { sim with
                 step_count := sc
                 time := time1
                 engines := st.engines
                 pending_events := rest
                 dispatch_history := st.history ++ [errRecord st.ev] } }
      else
        some { reward := st.rewards.sum / st.rewards.length,
               terminated := decide (sim.max_steps ≤ sc) || rest.isEmpty,
               info := .ok st.ev.id st.used_engines (listMin st.resp_times) st.resp_times,
               sim := { sim with
                 step_count := sc
                 time := time1
                 engines := st.engines
                 pending_events := rest
                 finished_events := sim.finished_events ++ [st.ev]
                 response_times := sim.response_times ++ st.resp_times
                 dispatch_history := st.history } }

/-- A sequence of `step` calls, `none` as soon as one raises. -/
def runSteps : Simulator → List (List ℤ) → Option Simulator
  | sim, [] => some sim
  | sim, a :: rest =>
    match sim.step a with
    | none => none
    | some res => runSteps res.sim rest

/-- Timestamp order on incidents, the sort key of `_generate_events`. -/
def tsLE : FireEvent → FireEvent → Prop := fun a b => a.timestamp ≤ b.timestamp

instance tsLE_dec : DecidableRel tsLE := fun a b =>
  inferInstanceAs (Decidable (a.timestamp ≤ b.timestamp))

instance tsLE_total : IsTotal FireEvent tsLE := ⟨fun a b => le_total a.timestamp b.timestamp⟩

instance tsLE_trans : IsTrans FireEvent tsLE := ⟨fun _ _ _ h1 h2 => le_trans h1 h2⟩

/-- `Simulator._generate_events`, lines 94-103: the incident objects built
from the tabular rows (modelled as the already-constructed events) are
sorted ascending by timestamp with a stable sort. -/
def generate_events (rows : List FireEvent) : List FireEvent :=
  List.insertionSort tsLE rows

/-- `Simulator.reset(event_df)`, lines 56-65: clear the clock, counters
and logs, rebuild the fleet from configuration (which yields each engine
in its freshly-constructed state, i.e. `FireEngine.reset`), and rebuild
the queue from the supplied incident set. -/
def Simulator.resetWith (sim : Simulator) (rows : List FireEvent) : Simulator :=
  { sim with
    time := 0
    step_count := 0
    response_times := []
    finished_events := []
    dispatch_history := []
    engines := sim.engines.map FireEngine.reset
    pending_events := generate_events rows }

/-! ### Definitions: availability ranker (`simulator_core.py` lines 210-228) -/

/-- The first sort-key component: the travel-time lookup result, with
lookup failure (`except`) mapped to `float('inf')`. -/
def timeKey (o : Option ℚ) : WithTop ℚ :=
  match o with
  | none => ⊤
  | some q => (q : WithTop ℚ)

/-- One entry `(e.id, t, e.dispatch_count)` of the `times` list built by
`get_sorted_available_engines` (lines 218-225). -/
def rankTriple (sim : Simulator) (idx : ℕ) (e : FireEngine) : ℤ × WithTop ℚ × ℕ :=
  (e.id, timeKey ((sim.station_mapping e.id).bind (sim.event_station_times idx)),
    e.dispatch_count)

/-- The comparison `key=lambda x: (x[1], x[2], x[0])` of line 227: Python
tuples compare lexicographically by travel time, then dispatch count,
then engine id. -/
def rankLE (a b : ℤ × WithTop ℚ × ℕ) : Prop :=
  toLex (a.2.1, toLex (a.2.2, a.1)) ≤ toLex (b.2.1, toLex (b.2.2, b.1))

instance rankLE_dec : DecidableRel rankLE := fun a b =>
  inferInstanceAs (Decidable (_ ≤ _))

instance rankLE_total : IsTotal (ℤ × WithTop ℚ × ℕ) rankLE :=
  ⟨fun a b => le_total _ _⟩

instance rankLE_trans : IsTrans (ℤ × WithTop ℚ × ℕ) rankLE :=
  ⟨fun _ _ _ h1 h2 => le_trans h1 h2⟩

/-- The `times` list of lines 218-225: one triple per available engine,
in fleet order. -/
def Simulator.rankerTimes (sim : Simulator) : List (ℤ × WithTop ℚ × ℕ) :=
  match sim.pending_events with
  | [] => []
  | ev :: _ =>
    (sim.engines.filter (fun e => e.is_available)).map (rankTriple sim ev.incident_index)

/-- `Simulator.get_sorted_available_engines`, lines 210-228.  The
`event_node` argument is accepted but unused by the source: the head of
the pending queue supplies the incident.  Empty when no engine is
available or the queue is empty. -/
def Simulator.get_sorted_available_engines (sim : Simulator)
    (_event_node : Option (ℚ × ℚ)) : List ℤ :=
  if (sim.engines.filter (fun e => e.is_available)) = [] then []
  else
    match sim.pending_events with
    | [] => []
    | _ :: _ => (List.insertionSort rankLE sim.rankerTimes).map (fun x => x.1)

/-! ### Definitions: feature encoder (`utils.py`) -/

/-- `np.clip(x, lo, hi)`. -/
def qclip (x lo hi : ℚ) : ℚ := min (max x lo) hi

/-- `_one_hot(index, length)`, `utils.py` lines 11-15: all zeros when the
index is out of range. -/
def oneHot (i len : ℕ) : List ℚ :=
  (List.range len).map (fun j => if j = i then 1 else 0)

/-- `_DEFAULT_RISK_MAP`, `utils.py` lines 3-9. -/
def defaultRiskMap : List (String × ℕ) :=
  [("false alarms", 0),
   ("secondary fires that attract a 20 minute-response time", 1),
   ("low risk", 2), ("medium risk", 3), ("high risk", 4)]

/-- The status dictionary of `utils.py` lines 61-65, default 0. -/
def statusIndex : EngineStatus → ℕ
  | .available => 0
  | .driving => 1
  | .cooling => 2

/-- Slot selection for per-vehicle block `idx` (`utils.py` lines 48-54):
prefer the `idx`-th ranked id (Python-indexed into the fleet, so an id
that is not a valid index raises), else the vehicle at raw index `idx`,
else no vehicle. -/
def engineSlot (sim : Simulator) (sorted_ids : List ℤ) (idx : ℕ) :
    Option (Option FireEngine) :=
  if idx < sorted_ids.length then
    match sorted_ids[idx]? with
    | none => none
    | some sid =>
      match pyIdx sim.engines.length sid with
      | none => none
      | some pos => sim.engines[pos]?.map some
  else if idx < sim.engines.length then sim.engines[idx]?.map some
  else some none

/-- The eight feature values of one occupied per-vehicle block (`utils.py`
lines 61-81): status one-hot, clipped normalized travel time (3600
fallback on any lookup failure, including an empty queue), rank signal,
usage signal, remaining-time signal (0 when available) and normalized id. -/
def engineFeatures (sim : Simulator) (eventHead : Option FireEvent) (n idx : ℕ)
    (eng : FireEngine) : List ℚ :=
  let travel_time : ℚ :=
    match eventHead, sim.station_mapping eng.id with
    | some ev, some s => (sim.event_station_times ev.incident_index s).getD 3600
    | _, _ => 3600
  let dist := min travel_time 3600 / 3600
  let usage := qclip ((eng.dispatch_count : ℚ) / 10) 0 1
  let remain := if eng.status ≠ .available then qclip (eng.remaining_time / 600) 0 1 else 0
  oneHot (statusIndex eng.status) 3 ++
    [dist, (idx : ℚ) / (n : ℚ), usage, remain, (eng.id : ℚ) / sim.config.max_engines]

/-- The `N` per-vehicle blocks of `get_observation` (`utils.py` lines
48-81), one 8-value block per window slot, `none` on `IndexError`. -/
def engineBlocks (sim : Simulator) (eventHead : Option FireEvent) (sorted_ids : List ℤ) :
    Option (List (List ℚ)) :=
  (List.range sim.config.obs_engine_count).mapM (fun idx =>
    (engineSlot sim sorted_ids idx).map (fun eng? =>
      match eng? with
      | some eng => engineFeatures sim eventHead sim.config.obs_engine_count idx eng
      | none => [0, 0, 0] ++ List.replicate 5 0))

/-- The raw concatenated observation of `get_observation` (`utils.py`
lines 17-86), before the final pad-or-trim: current-event block, `N`
per-vehicle blocks, time features.  Rational division is total where
Python float division is, modulo a zero divisor from degenerate
configuration.  `none` models the `IndexError` of `sim.engines[sid]`
for a ranked id that is not a valid fleet index. -/
def obs_raw (sim : Simulator) : Option (List ℚ) :=
  let cfg := sim.config
  let eventHead := sim.pending_events.head?
  let eventBlock : List ℚ :=
    match eventHead with
    | some ev =>
      let x := ev.graph_node.1 / cfg.map_width
      let y := ev.graph_node.2 / cfg.map_height
      let risk_idx := (cfg.risk_map.lookup ev.risk_level.toLower).getD
        (cfg.risk_map.length - 1)
      let wait_time := qclip (((sim.time - ev.timestamp : ℤ) : ℚ) / 300) 0 1
      [x, y] ++ oneHot risk_idx cfg.risk_map.length ++ [wait_time]
    | none => [0, 0] ++ List.replicate defaultRiskMap.length 0 ++ [0]
  let sorted_ids :=
    match eventHead with
    | some ev => sim.get_sorted_available_engines (some ev.graph_node)
    | none => []
  match engineBlocks sim eventHead sorted_ids with
  | none => none
  | some blocks =>
    let time_of_day := ((sim.time % 86400 : ℤ) : ℚ) / 86400
    some (eventBlock ++ blocks.flatten ++
      [time_of_day, (sim.step_count : ℚ) / (sim.max_steps : ℚ)])

/-- The pad-or-trim of `utils.py` lines 88-93: trim to `obs_dim` when too
long, zero-pad at the end when too short. -/
def padTrim (dim : ℕ) (l : List ℚ) : List ℚ :=
  if dim < l.length then l.take dim
  else if l.length < dim then l ++ List.replicate (dim - l.length) 0
  else l

/-- `get_observation(sim)`, `utils.py` lines 17-95. -/
def Simulator.get_observation (sim : Simulator) : Option (List ℚ) :=
  (obs_raw sim).map (padTrim sim.config.obs_dim)

/-- The selected id refers (through Python indexing) to a vehicle of the
fleet that is not available — the condition under which the dispatch loop
skips it. -/
def refsUnavailable (engines : List FireEngine) (i : ℤ) : Bool :=
  match pyIdx engines.length i with
  | none => false
  | some pos =>
    match engines.get? pos with
    | none => false
    | some e => !e.is_available

/-- The immutable identity of an incident: the fields never touched by
`mark_responded` that identify it (id, matrix index, location, call time,
risk label). -/
def evKey (ev : FireEvent) : ℕ × ℕ × (ℚ × ℚ) × ℤ × String :=
  (ev.id, ev.incident_index, ev.graph_node, ev.timestamp, ev.risk_level)

/-! ### Definitions: concrete states used by the witnesses -/

/-- A small configuration with the documented defaults. -/
def wConfig : SimConfig :=
  { map_width := 400000, map_height := 400000, risk_map := defaultRiskMap,
    obs_engine_count := 10, max_engines := 40, obs_dim := 96 }

def wEngineA : FireEngine := FireEngine.mkEngine 0 (0, 0) 180

def wEngineB : FireEngine := FireEngine.mkEngine 1 (5, 5) 180

/-- An engine busy driving, as mid-simulation. -/
def wEngineBusy : FireEngine :=
  { FireEngine.mkEngine 0 (0, 0) 180 with status := .driving, remaining_time := 400 }

def wEvent : FireEvent :=
  { id := 0, graph_node := (1, 2), timestamp := 50, risk_level := "low risk",
    incident_index := 0, reaction_seconds := 30, on_scene_seconds := 300,
    required_override := none, assigned := false, responder_id := none,
    response_time := none, true_driving_seconds := 999 }

/-- An incident requiring two vehicles (explicit override). -/
def wEventTwo : FireEvent := { wEvent with required_override := some 2 }

def wEvent2 : FireEvent := { wEvent with id := 1, incident_index := 1, timestamp := 80 }

/-- The incident with an explicit required-count override of 1. -/
def wEventOne : FireEvent := { wEvent with required_override := some 1 }

/-- An unsorted incident batch for the reset/trace witness. -/
def wRows : List FireEvent := [{ wEventOne with id := 1 }, wEventOne]

def wStations : ℤ → Option ℕ := fun i =>
  if i = 0 then some 0 else if i = 1 then some 1 else none

def wTable : ℕ → ℕ → Option ℚ := fun _ s => if s = 0 then some 100 else some 200

/-- Two available engines, one pending incident, clock already at the
incident time. -/
def wSim1 : Simulator :=
  { config := wConfig, max_steps := 100000, engines := [wEngineA, wEngineB],
    pending_events := [wEvent], finished_events := [], response_times := [],
    time := 50, step_count := 0, dispatch_history := [],
    station_mapping := wStations, event_station_times := wTable }

/-- One pending incident with required count 1 and a fleet of two engines. -/
def wSim7 : Simulator := { wSim1 with pending_events := [wEventOne] }

/-- A two-vehicle incident with both engines available. -/
def wSim10 : Simulator := { wSim1 with pending_events := [wEventTwo] }

/-- A two-vehicle incident where the engine selected first is busy. -/
def wSim6 : Simulator :=
  { wSim1 with engines := [wEngineBusy, wEngineB], pending_events := [wEventTwo] }

/-! ### Theorems: vehicle state machine -/

@[simp] theorem FireEngine.withRem_status (e : FireEngine) (r : ℚ) :
    (e.withRem r).status = e.status := rfl
@[simp] theorem FireEngine.withRem_rem (e : FireEngine) (r : ℚ) :
    (e.withRem r).remaining_time = r := rfl
@[simp] theorem FireEngine.withRem_cd (e : FireEngine) (r : ℚ) :
    (e.withRem r).cooldown_duration = e.cooldown_duration := rfl
@[simp] theorem FireEngine.withRem_count (e : FireEngine) (r : ℚ) :
    (e.withRem r).dispatch_count = e.dispatch_count := rfl
@[simp] theorem FireEngine.coolAt_status (e : FireEngine) (r : ℚ) :
    (e.coolAt r).status = .cooling := rfl
@[simp] theorem FireEngine.coolAt_rem (e : FireEngine) (r : ℚ) :
    (e.coolAt r).remaining_time = r := rfl
@[simp] theorem FireEngine.coolAt_cd (e : FireEngine) (r : ℚ) :
    (e.coolAt r).cooldown_duration = e.cooldown_duration := rfl
@[simp] theorem FireEngine.coolAt_count (e : FireEngine) (r : ℚ) :
    (e.coolAt r).dispatch_count = e.dispatch_count := rfl
@[simp] theorem FireEngine.toAvailable_status (e : FireEngine) :
    e.toAvailable.status = .available := rfl
@[simp] theorem FireEngine.toAvailable_rem (e : FireEngine) :
    e.toAvailable.remaining_time = 0 := rfl
@[simp] theorem FireEngine.toAvailable_cd (e : FireEngine) :
    e.toAvailable.cooldown_duration = e.cooldown_duration := rfl
@[simp] theorem FireEngine.toAvailable_count (e : FireEngine) :
    e.toAvailable.dispatch_count = e.dispatch_count := rfl
@[simp] theorem FireEngine.withRem_withRem (e : FireEngine) (r s : ℚ) :
    (e.withRem r).withRem s = e.withRem s := rfl
@[simp] theorem FireEngine.coolAt_withRem (e : FireEngine) (r s : ℚ) :
    (e.coolAt r).withRem s = e.coolAt s := rfl
@[simp] theorem FireEngine.withRem_coolAt (e : FireEngine) (r s : ℚ) :
    (e.withRem r).coolAt s = e.coolAt s := rfl
@[simp] theorem FireEngine.coolAt_coolAt (e : FireEngine) (r s : ℚ) :
    (e.coolAt r).coolAt s = e.coolAt s := rfl
@[simp] theorem FireEngine.withRem_toAvailable (e : FireEngine) (r : ℚ) :
    (e.withRem r).toAvailable = e.toAvailable := rfl
@[simp] theorem FireEngine.coolAt_toAvailable (e : FireEngine) (r : ℚ) :
    (e.coolAt r).toAvailable = e.toAvailable := rfl

theorem FireEngine.transition_cooling (e : FireEngine) (hs : e.status = .cooling) :
    e.transition = e.toAvailable := by
  unfold FireEngine.transition
  rw [hs]
  rfl

theorem FireEngine.transition_driving (e : FireEngine) (hs : e.status = .driving) :
    e.transition = e.coolAt e.cooldown_duration := by
  unfold FireEngine.transition
  rw [hs]
  rfl

theorem FireEngine.updateGo_succ (fuel : ℕ) (e : FireEngine) (t : ℚ) (ht : 0 < t)
    (hs : e.status ≠ .available) :
    e.updateGo (fuel + 1) t =
      if t ≤ e.remaining_time then
        (if e.remaining_time - t = 0 then
          FireEngine.transition { e with remaining_time := e.remaining_time - t }
        else { e with remaining_time := e.remaining_time - t })
      else e.transition.updateGo fuel (t - e.remaining_time) := by
  conv_lhs => rw [FireEngine.updateGo]
  rw [if_pos ⟨ht, hs⟩]

theorem FireEngine.updateGo_not_busy (fuel : ℕ) (e : FireEngine) (t : ℚ)
    (h : ¬(0 < t ∧ e.status ≠ .available)) :
    e.updateGo fuel t = e := by
  cases fuel <;> · conv_lhs => rw [FireEngine.updateGo]
                   rw [if_neg h]

theorem FireEngine.update_nonpos (e : FireEngine) (t : ℚ) (h : ¬0 < t) :
    e.update t = e :=
  FireEngine.updateGo_not_busy 2 e t (fun hc => h hc.1)

theorem FireEngine.update_avail (e : FireEngine) (t : ℚ) (h : e.status = .available) :
    e.update t = e :=
  FireEngine.updateGo_not_busy 2 e t (fun hc => hc.2 h)

theorem FireEngine.updateGo_cooling (fuel : ℕ) (e : FireEngine) (t : ℚ)
    (hs : e.status = .cooling) (ht : 0 < t) :
    e.updateGo (fuel + 1) t =
      if e.remaining_time ≤ t then e.toAvailable
      else e.withRem (e.remaining_time - t) := by
  have hs' : e.status ≠ .available := by rw [hs]; exact fun h => by cases h
  rw [FireEngine.updateGo_succ fuel e t ht hs']
  rcases lt_trichotomy e.remaining_time t with hlt | heq | hgt
  · rw [if_neg (not_le.mpr hlt), if_pos hlt.le,
      FireEngine.transition_cooling e hs,
      FireEngine.updateGo_not_busy]
    intro h
    exact h.2 rfl
  · rw [if_pos heq.ge, if_pos (by rw [heq, sub_self]), if_pos heq.le]
    rw [FireEngine.transition_cooling _ (by exact hs)]
    rfl
  · have hne : e.remaining_time - t ≠ 0 := fun h0 => (ne_of_gt hgt) (by linarith)
    rw [if_pos hgt.le, if_neg hne, if_neg (not_le.mpr hgt)]
    rfl

theorem FireEngine.updateGo_driving (fuel : ℕ) (e : FireEngine) (t : ℚ)
    (hs : e.status = .driving) (ht : 0 < t) :
    e.updateGo (fuel + 2) t =
      if t < e.remaining_time then e.withRem (e.remaining_time - t)
      else if e.remaining_time = t then e.coolAt e.cooldown_duration
      else if e.cooldown_duration ≤ t - e.remaining_time then e.toAvailable
      else e.coolAt (e.cooldown_duration - (t - e.remaining_time)) := by
  have hs' : e.status ≠ .available := by rw [hs]; exact fun h => by cases h
  rw [show fuel + 2 = (fuel + 1) + 1 from rfl,
    FireEngine.updateGo_succ (fuel + 1) e t ht hs']
  rcases lt_trichotomy t e.remaining_time with hlt | heq | hgt
  · have hne : e.remaining_time - t ≠ 0 := fun h0 => (ne_of_gt hlt) (by linarith)
    rw [if_pos hlt.le, if_neg hne, if_pos hlt]
    rfl
  · subst heq
    rw [if_pos le_rfl, if_pos (sub_self _), if_neg (lt_irrefl _), if_pos rfl,
      FireEngine.transition_driving _ (by exact hs)]
    rfl
  · have hco : (e.transition).status = .cooling := by
      rw [FireEngine.transition_driving e hs]; rfl
    rw [if_neg (not_le.mpr hgt), if_neg (not_lt.mpr hgt.le),
      if_neg (fun h => (ne_of_gt hgt) h.symm),
      FireEngine.updateGo_cooling fuel _ _ hco (by linarith),
      FireEngine.transition_driving e hs]
    simp only [FireEngine.coolAt_rem, FireEngine.coolAt_toAvailable,
      FireEngine.coolAt_withRem, FireEngine.coolAt_cd]

theorem FireEngine.update_cooling (e : FireEngine) (t : ℚ)
    (hs : e.status = .cooling) (ht : 0 < t) :
    e.update t =
      if e.remaining_time ≤ t then e.toAvailable
      else e.withRem (e.remaining_time - t) :=
  FireEngine.updateGo_cooling 1 e t hs ht

theorem FireEngine.update_driving (e : FireEngine) (t : ℚ)
    (hs : e.status = .driving) (ht : 0 < t) :
    e.update t =
      if t < e.remaining_time then e.withRem (e.remaining_time - t)
      else if e.remaining_time = t then e.coolAt e.cooldown_duration
      else if e.cooldown_duration ≤ t - e.remaining_time then e.toAvailable
      else e.coolAt (e.cooldown_duration - (t - e.remaining_time)) :=
  FireEngine.updateGo_driving 0 e t hs ht

/-- Claim C3: vehicle time advancement is additive.  For every vehicle
state (any status, remaining time, cooldown and counters) and all
nonnegative durations `a` and `b`, calling `update a` and then `update b`
yields exactly the same full vehicle state as a single `update (a + b)`. -/
theorem fireC3 (e : FireEngine) (a b : ℚ) (ha : 0 ≤ a) (hb : 0 ≤ b) :
    (e.update a).update b = e.update (a + b) := by
  rcases eq_or_lt_of_le ha with ha0 | hap
  · rw [← ha0, FireEngine.update_nonpos e 0 (lt_irrefl 0), zero_add]
  rcases eq_or_lt_of_le hb with hb0 | hbp
  · rw [← hb0, FireEngine.update_nonpos _ 0 (lt_irrefl 0), add_zero]
  have hab : 0 < a + b := by linarith
  cases hstat : e.status with
  | available =>
    rw [FireEngine.update_avail e a hstat, FireEngine.update_avail e b hstat,
      FireEngine.update_avail e (a + b) hstat]
  | cooling =>
    rw [FireEngine.update_cooling e a hstat hap, FireEngine.update_cooling e (a + b) hstat hab]
    by_cases h1 : e.remaining_time ≤ a
    · rw [if_pos h1, if_pos (show e.remaining_time ≤ a + b by linarith),
        FireEngine.update_avail _ b (by simp)]
    · rw [if_neg h1, FireEngine.update_cooling _ b (by simpa using hstat) hbp]
      simp only [FireEngine.withRem_rem, FireEngine.withRem_toAvailable,
        FireEngine.withRem_withRem]
      by_cases h2 : e.remaining_time - a ≤ b
      · rw [if_pos h2, if_pos (by linarith)]
      · rw [if_neg h2, if_neg (show ¬e.remaining_time ≤ a + b from fun h => h2 (by linarith)),
          show e.remaining_time - a - b = e.remaining_time - (a + b) from by ring]
  | driving =>
    rw [FireEngine.update_driving e a hstat hap, FireEngine.update_driving e (a + b) hstat hab]
    rcases lt_trichotomy a e.remaining_time with h1 | h1 | h1
    · rw [if_pos h1, FireEngine.update_driving _ b (by simpa using hstat) hbp]
      simp only [FireEngine.withRem_rem, FireEngine.withRem_cd, FireEngine.withRem_toAvailable,
        FireEngine.withRem_withRem, FireEngine.withRem_coolAt]
      rcases lt_trichotomy b (e.remaining_time - a) with h2 | h2 | h2
      · rw [if_pos h2, if_pos (by linarith),
          show e.remaining_time - a - b = e.remaining_time - (a + b) from by ring]
      · rw [if_neg (not_lt.mpr h2.ge), if_pos h2.symm,
          if_neg (show ¬a + b < e.remaining_time from by intro h; linarith),
          if_pos (show e.remaining_time = a + b from by linarith)]
      · rw [if_neg (not_lt.mpr h2.le),
          if_neg (show ¬e.remaining_time - a = b from by intro h; linarith),
          if_neg (show ¬a + b < e.remaining_time from by intro h; linarith),
          if_neg (show ¬e.remaining_time = a + b from by intro h; linarith)]
        by_cases h3 : e.cooldown_duration ≤ b - (e.remaining_time - a)
        · rw [if_pos h3, if_pos (by linarith)]
        · rw [if_neg h3,
            if_neg (show ¬e.cooldown_duration ≤ a + b - e.remaining_time from
              fun h => h3 (by linarith)),
            show e.cooldown_duration - (b - (e.remaining_time - a)) =
              e.cooldown_duration - (a + b - e.remaining_time) from by ring]
    · rw [if_neg (not_lt.mpr h1.ge), if_pos h1.symm,
        FireEngine.update_cooling _ b (by simp) hbp]
      simp only [FireEngine.coolAt_rem, FireEngine.coolAt_toAvailable,
        FireEngine.coolAt_withRem]
      rw [if_neg (show ¬a + b < e.remaining_time from by intro h; linarith),
        if_neg (show ¬e.remaining_time = a + b from by intro h; linarith)]
      by_cases h3 : e.cooldown_duration ≤ b
      · rw [if_pos h3, if_pos (show e.cooldown_duration ≤ a + b - e.remaining_time from by
          rw [← h1]; linarith)]
      · rw [if_neg h3,
          if_neg (show ¬e.cooldown_duration ≤ a + b - e.remaining_time from by
            rw [← h1]; intro h; exact h3 (by linarith)),
          show e.cooldown_duration - b = e.cooldown_duration - (a + b - e.remaining_time) from by
            rw [← h1]; ring]
    · rw [if_neg (not_lt.mpr h1.le),
        if_neg (show ¬e.remaining_time = a from by intro h; linarith),
        if_neg (show ¬a + b < e.remaining_time from by intro h; linarith),
        if_neg (show ¬e.remaining_time = a + b from by intro h; linarith)]
      by_cases h3 : e.cooldown_duration ≤ a - e.remaining_time
      · rw [if_pos h3, FireEngine.update_avail _ b (by simp), if_pos (by linarith)]
      · rw [if_neg h3, FireEngine.update_cooling _ b (by simp) hbp]
        simp only [FireEngine.coolAt_rem, FireEngine.coolAt_toAvailable,
          FireEngine.coolAt_withRem]
        by_cases h4 : e.cooldown_duration - (a - e.remaining_time) ≤ b
        · rw [if_pos h4, if_pos (by linarith)]
        · rw [if_neg h4,
            if_neg (show ¬e.cooldown_duration ≤ a + b - e.remaining_time from
              fun h => h4 (by linarith)),
            show e.cooldown_duration - (a - e.remaining_time) - b =
              e.cooldown_duration - (a + b - e.remaining_time) from by ring]

theorem FireEngine.is_available_iff (e : FireEngine) :
    e.is_available = true ↔ e.status = .available := by
  simp [FireEngine.is_available]

theorem FireEngine.busyLeft_avail (e : FireEngine) (h : e.status = .available) :
    e.busyLeft = 0 := by
  unfold FireEngine.busyLeft
  rw [h]

theorem FireEngine.busyLeft_cooling (e : FireEngine) (h : e.status = .cooling) :
    e.busyLeft = e.remaining_time := by
  unfold FireEngine.busyLeft
  rw [h]

theorem FireEngine.busyLeft_driving (e : FireEngine) (h : e.status = .driving) :
    e.busyLeft = e.remaining_time + e.cooldown_duration := by
  unfold FireEngine.busyLeft
  rw [h]

theorem busyLeft_nonneg {e : FireEngine} (h : EngineWF e) : 0 ≤ e.busyLeft := by
  obtain ⟨hc, hd, hco⟩ := h
  cases hstat : e.status with
  | available => rw [e.busyLeft_avail hstat]
  | driving =>
    rw [e.busyLeft_driving hstat]
    have := hd hstat
    linarith
  | cooling =>
    rw [e.busyLeft_cooling hstat]
    exact (hco hstat).le

theorem is_available_iff_busyLeft {e : FireEngine} (h : EngineWF e) :
    e.is_available = true ↔ e.busyLeft = 0 := by
  obtain ⟨hc, hd, hco⟩ := h
  rw [FireEngine.is_available_iff]
  cases hstat : e.status with
  | available => simp [hstat, e.busyLeft_avail hstat]
  | driving =>
    have := hd hstat
    rw [e.busyLeft_driving hstat]
    constructor
    · intro hh; cases hh
    · intro hh; linarith
  | cooling =>
    have := hco hstat
    rw [e.busyLeft_cooling hstat]
    constructor
    · intro hh; cases hh
    · intro hh; linarith

theorem update_WF_busy {e : FireEngine} (h : EngineWF e) (t : ℚ) (ht : 0 ≤ t) :
    EngineWF (e.update t) ∧ (e.update t).busyLeft = max 0 (e.busyLeft - t) := by
  obtain ⟨hc, hd, hco⟩ := h
  rcases eq_or_lt_of_le ht with ht0 | htp
  · rw [← ht0, FireEngine.update_nonpos e 0 (lt_irrefl 0)]
    refine ⟨⟨hc, hd, hco⟩, ?_⟩
    rw [sub_zero, max_eq_right (busyLeft_nonneg ⟨hc, hd, hco⟩)]
  cases hstat : e.status with
  | available =>
    rw [FireEngine.update_avail e t hstat]
    refine ⟨⟨hc, hd, hco⟩, ?_⟩
    rw [e.busyLeft_avail hstat, max_eq_left (by linarith)]
  | cooling =>
    have hrem := hco hstat
    rw [FireEngine.update_cooling e t hstat htp, e.busyLeft_cooling hstat]
    by_cases h1 : e.remaining_time ≤ t
    · rw [if_pos h1]
      refine ⟨⟨by simpa using hc, by simp, by simp⟩, ?_⟩
      rw [e.toAvailable.busyLeft_avail (by simp), max_eq_left (by linarith)]
    · rw [if_neg h1]
      refine ⟨⟨by simpa using hc, ?_, ?_⟩, ?_⟩
      · intro hh
        simp [hstat] at hh
      · intro _
        simp only [FireEngine.withRem_rem]
        linarith [not_le.mp h1]
      · rw [FireEngine.busyLeft_cooling _ (by simpa using hstat)]
        simp only [FireEngine.withRem_rem]
        rw [max_eq_right (by linarith [not_le.mp h1])]
  | driving =>
    have hrem := hd hstat
    rw [FireEngine.update_driving e t hstat htp, e.busyLeft_driving hstat]
    rcases lt_trichotomy t e.remaining_time with h1 | h1 | h1
    · rw [if_pos h1]
      refine ⟨⟨by simpa using hc, ?_, ?_⟩, ?_⟩
      · intro _
        simp only [FireEngine.withRem_rem]
        linarith
      · intro hh
        simp [hstat] at hh
      · rw [FireEngine.busyLeft_driving _ (by simpa using hstat)]
        simp only [FireEngine.withRem_rem, FireEngine.withRem_cd]
        rw [max_eq_right (by linarith)]
        ring
    · rw [if_neg (not_lt.mpr h1.ge), if_pos h1.symm]
      refine ⟨⟨by simpa using hc, by simp, by intro _; simpa using hc⟩, ?_⟩
      rw [FireEngine.busyLeft_cooling _ (by simp)]
      simp only [FireEngine.coolAt_rem]
      rw [max_eq_right (by linarith)]
      rw [← h1]
      ring
    · rw [if_neg (not_lt.mpr h1.le), if_neg (show ¬e.remaining_time = t from by intro h; linarith)]
      by_cases h3 : e.cooldown_duration ≤ t - e.remaining_time
      · rw [if_pos h3]
        refine ⟨⟨by simpa using hc, by simp, by simp⟩, ?_⟩
        rw [e.toAvailable.busyLeft_avail (by simp), max_eq_left (by linarith)]
      · rw [if_neg h3]
        refine ⟨⟨by simpa using hc, by simp, ?_⟩, ?_⟩
        · intro _
          simp only [FireEngine.coolAt_rem]
          linarith [not_le.mp h3]
        · rw [FireEngine.busyLeft_cooling _ (by simp)]
          simp only [FireEngine.coolAt_rem]
          rw [max_eq_right (by linarith [not_le.mp h3])]
          ring

theorem foldl_update_busy (ds : List ℚ) (hds : ∀ x ∈ ds, 0 ≤ x) (e : FireEngine)
    (h : EngineWF e) :
    EngineWF (ds.foldl FireEngine.update e) ∧
      (ds.foldl FireEngine.update e).busyLeft = max 0 (e.busyLeft - ds.sum) := by
  induction ds generalizing e with
  | nil =>
    refine ⟨h, ?_⟩
    simp [max_eq_right (busyLeft_nonneg h)]
  | cons d ds ih =>
    have hd : 0 ≤ d := hds d (List.mem_cons_self d ds)
    have hds' : ∀ x ∈ ds, 0 ≤ x := fun x hx => hds x (List.mem_cons_of_mem d hx)
    have hsum : 0 ≤ ds.sum := List.sum_nonneg hds'
    obtain ⟨hwf1, hbusy1⟩ := update_WF_busy h d hd
    obtain ⟨hwf2, hbusy2⟩ := ih hds' (e.update d) hwf1
    refine ⟨by simpa using hwf2, ?_⟩
    rw [List.foldl_cons] at *
    rw [hbusy2, hbusy1, List.sum_cons]
    rcases le_or_lt e.busyLeft d with hcase | hcase
    · rw [max_eq_left (show e.busyLeft - d ≤ 0 from by linarith),
        max_eq_left (show (0:ℚ) - ds.sum ≤ 0 from by linarith),
        max_eq_left (show e.busyLeft - (d + ds.sum) ≤ 0 from by linarith)]
    · rw [max_eq_right (show (0:ℚ) ≤ e.busyLeft - d from by linarith)]
      congr 1
      ring

/-- Claim C2 (amended): for a vehicle assigned via `assign_to_event` with
nonnegative driving time `d`, reaction `r`, on-scene `o` and a positive
cooldown `c`, and any sequence of positive update durations, the vehicle
is available after the sequence exactly when the elapsed total reaches
`r + 2*d + o + c` — so the busy duration from assignment to the next
`Available` is exactly `r + 2*d + o + c` however time is chunked.  The
positivity of the cooldown is required: see the counterexample with
cooldown zero. -/
theorem fireC2 (e : FireEngine) (node : ℚ × ℚ) (d r o : ℚ)
    (hd : 0 ≤ d) (hr : 0 ≤ r) (ho : 0 ≤ o) (hc : 0 < e.cooldown_duration)
    (ds : List ℚ) (hds : ∀ x ∈ ds, 0 < x) :
    (ds.foldl FireEngine.update (e.assign_to_event node d r o)).is_available = true ↔
      r + 2 * d + o + e.cooldown_duration ≤ ds.sum := by
  set e0 := e.assign_to_event node d r o with he0
  have hstat : e0.status = .driving := rfl
  have hwf : EngineWF e0 := by
    refine ⟨by simpa [he0, FireEngine.assign_to_event] using hc, ?_, ?_⟩
    · intro _
      show 0 ≤ r + d + o + d
      linarith
    · intro hh
      rw [hstat] at hh
      cases hh
  have hbusy0 : e0.busyLeft = r + d + o + d + e.cooldown_duration := by
    rw [FireEngine.busyLeft_driving e0 hstat]
    rfl
  obtain ⟨hwf', hbusy'⟩ := foldl_update_busy ds (fun x hx => (hds x hx).le) e0 hwf
  rw [is_available_iff_busyLeft hwf', hbusy', hbusy0,
    show r + d + o + d + e.cooldown_duration = r + 2 * d + o + e.cooldown_duration from by ring,
    max_eq_left_iff]
  constructor <;> intro hh <;> linarith

theorem FireEngine.update_immutable (e : FireEngine) (t : ℚ) :
    (e.update t).id = e.id ∧ (e.update t).home_node = e.home_node ∧
    (e.update t).cooldown_duration = e.cooldown_duration ∧
    (e.update t).dispatch_count = e.dispatch_count ∧
    (e.update t).total_driving_time = e.total_driving_time := by
  by_cases ht : 0 < t
  · cases hstat : e.status with
    | available =>
      rw [FireEngine.update_avail e t hstat]
      exact ⟨rfl, rfl, rfl, rfl, rfl⟩
    | cooling =>
      rw [FireEngine.update_cooling e t hstat ht]
      split_ifs <;> exact ⟨rfl, rfl, rfl, rfl, rfl⟩
    | driving =>
      rw [FireEngine.update_driving e t hstat ht]
      split_ifs <;> exact ⟨rfl, rfl, rfl, rfl, rfl⟩
  · rw [FireEngine.update_nonpos e t ht]
    exact ⟨rfl, rfl, rfl, rfl, rfl⟩

theorem update_pres_inv (e : FireEngine) (t : ℚ) (hcd : e.cooldown_duration ≠ 0)
    (h : e.remaining_time = 0 ↔ e.status = .available) :
    ((e.update t).remaining_time = 0 ↔ (e.update t).status = .available) := by
  by_cases ht : 0 < t
  · cases hstat : e.status with
    | available =>
      rw [FireEngine.update_avail e t hstat]
      exact h
    | cooling =>
      rw [FireEngine.update_cooling e t hstat ht]
      split_ifs with h1
      · simp
      · simp only [FireEngine.withRem_rem, FireEngine.withRem_status, hstat]
        constructor <;> intro hh
        · exfalso
          linarith [not_le.mp h1]
        · exact absurd hh (by decide)
    | driving =>
      rw [FireEngine.update_driving e t hstat ht]
      split_ifs with h1 h2 h3
      · simp only [FireEngine.withRem_rem, FireEngine.withRem_status, hstat]
        constructor <;> intro hh
        · exfalso
          linarith
        · exact absurd hh (by decide)
      · simp only [FireEngine.coolAt_rem, FireEngine.coolAt_status]
        constructor <;> intro hh
        · exact absurd hh hcd
        · exact absurd hh (by decide)
      · simp
      · simp only [FireEngine.coolAt_rem, FireEngine.coolAt_status]
        constructor <;> intro hh
        · exfalso
          linarith [not_le.mp h3]
        · exact absurd hh (by decide)
  · rw [FireEngine.update_nonpos e t ht]
    exact h

theorem reaches_invariant {c : ℚ} (hc : c ≠ 0) {e : FireEngine} (h : Reaches c e) :
    e.cooldown_duration = c ∧ (e.remaining_time = 0 ↔ e.status = .available) := by
  induction h with
  | init eid home => exact ⟨rfl, by simp [FireEngine.mkEngine]⟩
  | engineReset _ ih => exact ⟨ih.1, by simp [FireEngine.reset]⟩
  | engineAssign node d r o _ hne ih =>
    refine ⟨ih.1, ?_, ?_⟩
    · intro hh
      exact absurd hh hne
    · intro hh
      simp [FireEngine.assign_to_event] at hh
  | engineUpdate t _ ih =>
    have hcd : _ ≠ (0:ℚ) := ih.1 ▸ hc
    exact ⟨(FireEngine.update_immutable _ t).2.2.1.trans ih.1,
      update_pres_inv _ t hcd ih.2⟩

/-- Claim C8 (amended): every vehicle reachable through the public
operations satisfies `remaining_time = 0` iff `status = Available`,
provided the vehicle's cooldown is nonzero and every assignment carries a
nonzero total active time `r + 2*d + o` (the `Reaches` predicate).  The
unrestricted claim fails: see the counterexample, which assigns with all
durations zero. -/
theorem fireC8 {c : ℚ} (hc : c ≠ 0) {e : FireEngine} (h : Reaches c e) :
    e.remaining_time = 0 ↔ e.status = .available :=
  (reaches_invariant hc h).2

/-- Counterexample to claim C8 as stated: after `assign_to_event` with
driving, reaction and on-scene times all zero (public operations on a
fresh vehicle with the default cooldown 180), the vehicle has
`remaining_time = 0` while its status is Driving, not Available. -/
theorem fireC8_cex :
    ((FireEngine.mkEngine 0 (0, 0) 180).assign_to_event (0, 0) 0 0 0).remaining_time = 0 ∧
      ((FireEngine.mkEngine 0 (0, 0) 180).assign_to_event (0, 0) 0 0 0).status ≠
        EngineStatus.available := by
  constructor
  · show (0 : ℚ) + 0 + 0 + 0 = 0
    norm_num
  · intro hh
    exact absurd hh (by decide)

/-- Witness for claim C8 at a concrete reachable state. -/
theorem fireC8_witness :
    ((FireEngine.mkEngine 0 (0, 0) 180).assign_to_event (1, 1) 50 30 300).remaining_time = 0 ↔
      ((FireEngine.mkEngine 0 (0, 0) 180).assign_to_event (1, 1) 50 30 300).status =
        EngineStatus.available :=
  fireC8 (by norm_num)
    (Reaches.engineAssign (1, 1) 50 30 300 (Reaches.init 0 (0, 0)) (by norm_num))

/-- Counterexample to claim C2 as stated: with cooldown 0, driving 5 and
reaction and on-scene 0, a single update of the full claimed busy time
`r + 2*d + o + c = 10` leaves the vehicle in the cooling phase, not
available, so the time to availability exceeds `r + 2*d + o + c`. -/
theorem fireC2_cex :
    (((FireEngine.mkEngine 0 (0, 0) 0).assign_to_event (0, 0) 5 0 0).update
        (0 + 2 * 5 + 0 + 0)).is_available = false := by
  norm_num [FireEngine.update, FireEngine.updateGo, FireEngine.transition,
    FireEngine.assign_to_event, FireEngine.mkEngine, FireEngine.is_available]
  decide

/-- Witness for claim C2: scenario A of the specification (driving 50,
reaction 30, on-scene 300, cooldown 180, one update of 610 seconds). -/
theorem fireC2_witness :
    (([(610 : ℚ)]).foldl FireEngine.update
      ((FireEngine.mkEngine 0 (0, 0) 180).assign_to_event (1, 1) 50 30 300)).is_available
      = true := by
  refine (fireC2 (FireEngine.mkEngine 0 (0, 0) 180) (1, 1) 50 30 300 (by norm_num)
    (by norm_num) (by norm_num) (by norm_num [FireEngine.mkEngine]) [(610 : ℚ)]
    (by intro x hx
        rw [List.mem_singleton] at hx
        subst hx
        norm_num)).mpr ?_
  show (30 : ℚ) + 2 * 50 + 300 + (FireEngine.mkEngine 0 (0, 0) 180).cooldown_duration ≤
    List.sum [(610 : ℚ)]
  norm_num [FireEngine.mkEngine]

/-- Witness for claim C3: scenario B of the specification (remaining 430
in Driving with cooldown 180, advanced by 500 and then 110 seconds). -/
theorem fireC3_witness :
    ((((FireEngine.mkEngine 0 (0, 0) 180).assign_to_event (2, 3) 50 30 300).update 500).update
        110) =
      ((FireEngine.mkEngine 0 (0, 0) 180).assign_to_event (2, 3) 50 30 300).update (500 + 110) :=
  fireC3 _ 500 110 (by norm_num) (by norm_num)


/-! ### Theorems: dispatch engine -/

theorem dispatchLoop_all_skip (tbl : ℕ → ℕ → Option ℚ) (sm : ℤ → Option ℕ) (r o : ℚ)
    (dc : ℕ) (ids : List ℤ) (i : ℕ) (st : DispatchState)
    (h : ∀ x ∈ ids, refsUnavailable st.engines x = true) :
    dispatchLoop tbl sm r o dc st i ids = some st := by
  induction ids generalizing i with
  | nil => rfl
  | cons x rest ih =>
    have hx := h x (List.mem_cons_self x rest)
    unfold refsUnavailable at hx
    cases hpos : pyIdx st.engines.length x with
    | none => simp [hpos] at hx
    | some pos =>
      simp only [hpos] at hx
      cases hget : st.engines[pos]? with
      | none => simp [hget] at hx
      | some e =>
        rw [dispatchLoop]
        simp only [hpos, hget]
        rw [if_neg (by simp_all)]
        exact ih (i + 1) (fun y hy => h y (List.mem_cons_of_mem x hy))

/-- Claim C1: a `step` on a non-empty queue in which every selected id
(after truncation to the required count) refers to an unavailable vehicle
— in particular `step []` — appends exactly one error-marked Dispatch
Record with null vehicle fields, returns reward `-1000.0`,
`terminated = false` (whatever the step counter is), and the popped
incident is neither re-queued nor finished. -/
theorem fireC1 (sim : Simulator) (ids : List ℤ) (ev : FireEvent) (rest : List FireEvent)
    (hp : sim.pending_events = ev :: rest)
    (hun : ∀ x ∈ ids.take ev.get_required_dispatch_count,
      refsUnavailable (sim.advanceEngines ev) x = true) :
    ∃ res : StepResult, sim.step ids = some res ∧
      res.reward = -1000 ∧ res.terminated = false ∧
      res.info = .err "no_engines_dispatched" ∧
      res.sim.dispatch_history = sim.dispatch_history ++ [errRecord ev] ∧
      res.sim.pending_events = rest ∧
      res.sim.finished_events = sim.finished_events := by
  have hloop := dispatchLoop_all_skip sim.event_station_times sim.station_mapping
    ev.reaction_seconds ev.on_scene_seconds ev.get_required_dispatch_count
    (ids.take ev.get_required_dispatch_count) 0
    { engines := sim.advanceEngines ev, ev := ev, rewards := [], resp_times := [],
      used_engines := [], history := sim.dispatch_history } hun
  have hstep : sim.step ids = some
      { reward := -1000, terminated := false, info := .err "no_engines_dispatched",
        sim := { sim with
          step_count := sim.step_count + 1
          time := if sim.time < ev.timestamp then ev.timestamp else sim.time
          engines := sim.advanceEngines ev
          pending_events := rest
          dispatch_history := sim.dispatch_history ++ [errRecord ev] } } := by
    simp only [Simulator.step, hp, hloop]
    rw [if_pos trivial]
  exact ⟨_, hstep, rfl, rfl, rfl, rfl, rfl, rfl⟩

/-- Witness for claim C1: scenario C, `step([])` with one pending incident. -/
theorem fireC1_witness :
    ∃ res : StepResult, wSim1.step [] = some res ∧
      res.reward = -1000 ∧ res.terminated = false ∧
      res.info = .err "no_engines_dispatched" ∧
      res.sim.dispatch_history = wSim1.dispatch_history ++ [errRecord wEvent] ∧
      res.sim.pending_events = [] ∧
      res.sim.finished_events = wSim1.finished_events :=
  fireC1 wSim1 [] wEvent [] rfl (by intro x hx; simp at hx)

theorem pyIdx_valid (n : ℕ) (i : ℤ) (h1 : -(n : ℤ) ≤ i) (h2 : i < (n : ℤ)) :
    ∃ pos, pyIdx n i = some pos ∧ pos < n := by
  unfold pyIdx
  by_cases h0 : 0 ≤ i
  · rw [if_pos h0, if_pos h2]
    exact ⟨i.toNat, rfl, by omega⟩
  · rw [if_neg h0, if_pos (by omega)]
    refine ⟨n - (-i).toNat, rfl, ?_⟩
    omega

theorem dispatchLoop_total (tbl : ℕ → ℕ → Option ℚ) (sm : ℤ → Option ℕ) (r o : ℚ)
    (dc : ℕ) (ids : List ℤ) : ∀ (st : DispatchState) (i : ℕ),
    (∀ x ∈ ids, -(st.engines.length : ℤ) ≤ x ∧ x < (st.engines.length : ℤ)) →
    ∃ st', dispatchLoop tbl sm r o dc st i ids = some st' := by
  induction ids with
  | nil => exact fun st i _ => ⟨st, rfl⟩
  | cons x rest ih =>
    intro st i h
    obtain ⟨h1, h2⟩ := h x (List.mem_cons_self x rest)
    obtain ⟨pos, hpos, hlt⟩ := pyIdx_valid _ _ h1 h2
    have hget : st.engines[pos]? = some st.engines[pos] := List.getElem?_eq_getElem hlt
    rw [dispatchLoop]
    simp only [hpos, hget]
    by_cases hav : st.engines[pos].is_available = true
    · rw [if_pos hav]
      refine ih _ (i + 1) ?_
      intro y hy
      have hb := h y (List.mem_cons_of_mem x hy)
      simpa [List.length_set] using hb
    · rw [if_neg hav]
      exact ih st (i + 1) (fun y hy => h y (List.mem_cons_of_mem x hy))

/-- Claim C7 (amended): `step` is total provided every selected id is a
valid Python index into the fleet (between `-n` and `n - 1` for a fleet
of `n` vehicles): it always returns an ordinary `(reward, terminated,
info)` result, skipping unavailable selections and degrading lookup
failures to the 3600.0 fallback.  For an id outside that range the
original claim fails: `self.engines[engine_id]` raises `IndexError`
(see the counterexample). -/
theorem fireC7 (sim : Simulator) (ids : List ℤ)
    (h : ∀ i ∈ ids, -(sim.engines.length : ℤ) ≤ i ∧ i < (sim.engines.length : ℤ)) :
    ∃ res : StepResult, sim.step ids = some res := by
  cases hp : sim.pending_events with
  | nil =>
    refine ⟨⟨0, true, .empty, { sim with step_count := sim.step_count + 1 }⟩, ?_⟩
    simp only [Simulator.step, hp]
  | cons ev rest =>
    have hlen : (sim.advanceEngines ev).length = sim.engines.length := by
      unfold Simulator.advanceEngines
      split <;> simp
    obtain ⟨st', hloop⟩ := dispatchLoop_total sim.event_station_times sim.station_mapping
      ev.reaction_seconds ev.on_scene_seconds ev.get_required_dispatch_count
      (ids.take ev.get_required_dispatch_count)
      { engines := sim.advanceEngines ev, ev := ev, rewards := [], resp_times := [],
        used_engines := [], history := sim.dispatch_history } 0
      (by
        intro y hy
        have hb := h y (List.take_subset _ _ hy)
        simpa [hlen] using hb)
    simp only [Simulator.step, hp, hloop]
    by_cases hu : st'.used_engines = []
    · rw [if_pos hu]
      exact ⟨_, rfl⟩
    · rw [if_neg hu]
      exact ⟨_, rfl⟩

/-- Counterexample to claim C7 as stated: selecting id 5 in a fleet of two
engines makes `step` hit `IndexError` in `self.engines[engine_id]` — the
call does not complete through the ordinary return contract. -/
theorem fireC7_cex : wSim7.step [5] = none := rfl

/-- Witness for claim C7 at a concrete in-range selection. -/
theorem fireC7_witness : ∃ res : StepResult, wSim1.step [0] = some res :=
  fireC7 wSim1 [0] (by
    intro i hi
    rw [List.mem_singleton] at hi
    subst hi
    exact ⟨by decide, by decide⟩)

theorem assign_not_available (e : FireEngine) (n : ℚ × ℚ) (d r o : ℚ) :
    (e.assign_to_event n d r o).is_available = false := rfl

theorem dispatchLoop_count (tbl : ℕ → ℕ → Option ℚ) (sm : ℤ → Option ℕ) (r o : ℚ)
    (dc : ℕ) (ids : List ℤ) :
    ∀ (orig : List FireEngine) (st : DispatchState) (i : ℕ) (st' : DispatchState),
    dispatchLoop tbl sm r o dc st i ids = some st' →
    st.engines.length = orig.length →
    (∀ (p : ℕ) (e₀ e : FireEngine), orig[p]? = some e₀ → st.engines[p]? = some e →
      e = e₀ ∨ (e.dispatch_count = e₀.dispatch_count + 1 ∧ e.is_available = false)) →
    st'.engines.length = orig.length ∧
    (∀ (p : ℕ) (e₀ e' : FireEngine), orig[p]? = some e₀ → st'.engines[p]? = some e' →
      e' = e₀ ∨ (e'.dispatch_count = e₀.dispatch_count + 1 ∧ e'.is_available = false)) := by
  induction ids with
  | nil =>
    intro orig st i st' hstep hlen hinv
    rw [dispatchLoop] at hstep
    cases hstep
    exact ⟨hlen, hinv⟩
  | cons x rest ih =>
    intro orig st i st' hstep hlen hinv
    rw [dispatchLoop] at hstep
    cases hpos : pyIdx st.engines.length x with
    | none => simp [hpos] at hstep
    | some pos =>
      simp only [hpos] at hstep
      cases hget : st.engines[pos]? with
      | none => simp [hget] at hstep
      | some engine =>
        simp only [hget] at hstep
        by_cases hav : engine.is_available = true
        · rw [if_pos hav] at hstep
          have hpl : pos < st.engines.length := by
            by_contra hcon
            rw [List.getElem?_eq_none (not_lt.mp hcon)] at hget
            cases hget
          refine ih orig _ (i + 1) st' hstep (by simpa [List.length_set] using hlen) ?_
          intro p e₀ e hor hcur
          by_cases hpp : p = pos
          · subst hpp
            rw [List.getElem?_set_eq_of_lt _ hpl] at hcur
            have he : e = engine.assign_to_event st.ev.graph_node
                ((sm x).bind (tbl st.ev.incident_index) |>.getD 3600) r o :=
              (Option.some.inj hcur).symm
            have horig := hinv p e₀ engine hor hget
            rcases horig with horig | horig
            · subst horig
              right
              rw [he]
              exact ⟨rfl, rfl⟩
            · exact absurd hav (by rw [horig.2]; exact Bool.false_ne_true)
          · rw [List.getElem?_set_ne (fun hh => hpp hh.symm)] at hcur
            exact hinv p e₀ e hor hcur
        · rw [if_neg hav] at hstep
          exact ih orig st (i + 1) st' hstep hlen hinv

theorem advanceEngines_length (sim : Simulator) (ev : FireEvent) :
    (sim.advanceEngines ev).length = sim.engines.length := by
  unfold Simulator.advanceEngines
  split <;> simp

theorem advanceEngines_count (sim : Simulator) (ev : FireEvent) (q : ℕ)
    (a b : FireEngine) (ha : sim.engines[q]? = some a)
    (hb : (sim.advanceEngines ev)[q]? = some b) :
    b.dispatch_count = a.dispatch_count := by
  unfold Simulator.advanceEngines at hb
  split at hb
  · rw [List.getElem?_map, ha] at hb
    simp only [Option.map_some'] at hb
    rw [← Option.some.inj hb]
    exact (FireEngine.update_immutable a _).2.2.2.1
  · rw [ha] at hb
    exact congrArg FireEngine.dispatch_count (Option.some.inj hb).symm

/-- Claim C10: within a single `step` call each vehicle is assigned at
most once — every vehicle's dispatch counter grows by at most one, even
when its id occurs several times in the selected list, because `assign`
makes the vehicle unavailable and the loop never assigns an unavailable
vehicle.  (The claim's proviso that the total active time be positive is
not needed: `is_available` tests the status string, which `assign` always
sets to Driving.) -/
theorem fireC10 (sim : Simulator) (ids : List ℤ) (res : StepResult)
    (h : sim.step ids = some res) :
    ∀ (p : ℕ) (e₀ e' : FireEngine), sim.engines[p]? = some e₀ →
      res.sim.engines[p]? = some e' →
      e'.dispatch_count ≤ e₀.dispatch_count + 1 := by
  intro p e₀ e' h₀ h'
  cases hp : sim.pending_events with
  | nil =>
    simp only [Simulator.step, hp] at h
    have hres := Option.some.inj h
    subst hres
    rw [h₀] at h'
    rw [(Option.some.inj h').symm]
    exact Nat.le_succ _
  | cons ev rest =>
    cases hloop : dispatchLoop sim.event_station_times sim.station_mapping
        ev.reaction_seconds ev.on_scene_seconds ev.get_required_dispatch_count
        { engines := sim.advanceEngines ev, ev := ev, rewards := [], resp_times := [],
          used_engines := [], history := sim.dispatch_history } 0
        (ids.take ev.get_required_dispatch_count) with
    | none =>
      simp only [Simulator.step, hp, hloop] at h
      exact Option.noConfusion h
    | some st' =>
      simp only [Simulator.step, hp, hloop] at h
      obtain ⟨hlen, hinv⟩ := dispatchLoop_count sim.event_station_times sim.station_mapping
        ev.reaction_seconds ev.on_scene_seconds ev.get_required_dispatch_count
        (ids.take ev.get_required_dispatch_count) (sim.advanceEngines ev) _ 0 st' hloop rfl
        (fun q a b haq hbq => by
          rw [haq] at hbq
          exact Or.inl (Option.some.inj hbq).symm)
      have hres : res.sim.engines = st'.engines := by
        by_cases hu : st'.used_engines = []
        · rw [if_pos hu] at h
          have := Option.some.inj h
          subst this
          rfl
        · rw [if_neg hu] at h
          have := Option.some.inj h
          subst this
          rfl
      rw [hres] at h'
      have hplen : p < sim.engines.length := by
        by_contra hcon
        rw [List.getElem?_eq_none (not_lt.mp hcon)] at h₀
        exact Option.noConfusion h₀
      have hplen2 : p < (sim.advanceEngines ev).length := by
        rw [advanceEngines_length]
        exact hplen
      have hb : (sim.advanceEngines ev)[p]? = some (sim.advanceEngines ev)[p] :=
        List.getElem?_eq_getElem hplen2
      have hcount := advanceEngines_count sim ev p e₀ _ h₀ hb
      rcases hinv p _ e' hb h' with hcase | hcase
      · rw [hcase, hcount]
        exact Nat.le_succ _
      · rw [hcase.1, hcount]

/-- Witness for claim C10: a duplicated selection `[0, 0]` on a
two-vehicle incident bumps engine 0's counter by exactly one. -/
theorem fireC10_witness :
    ∃ res : StepResult, wSim10.step [0, 0] = some res ∧
      ∀ (p : ℕ) (e₀ e' : FireEngine), wSim10.engines[p]? = some e₀ →
        res.sim.engines[p]? = some e' →
        e'.dispatch_count ≤ e₀.dispatch_count + 1 :=
  ⟨_, rfl, fireC10 wSim10 [0, 0] _ rfl⟩

theorem dispatchLoop_records_tail (tbl : ℕ → ℕ → Option ℚ) (sm : ℤ → Option ℕ)
    (r o : ℚ) (dc : ℕ) (ids : List ℤ) :
    ∀ (st : DispatchState) (i : ℕ) (st' : DispatchState), i ≠ 0 →
    dispatchLoop tbl sm r o dc st i ids = some st' →
    ∃ recs, st'.history = st.history ++ recs ∧
      ∀ x ∈ recs, x.dispatched_vehicle_count = none := by
  induction ids with
  | nil =>
    intro st i st' _ h
    rw [dispatchLoop] at h
    cases h
    exact ⟨[], by simp, by simp⟩
  | cons a rest ih =>
    intro st i st' hi h
    rw [dispatchLoop] at h
    cases hpos : pyIdx st.engines.length a with
    | none =>
      simp only [hpos] at h
      exact Option.noConfusion h
    | some pos =>
      simp only [hpos] at h
      cases hget : st.engines[pos]? with
      | none =>
        simp only [hget] at h
        exact Option.noConfusion h
      | some e =>
        simp only [hget] at h
        by_cases hav : e.is_available = true
        · rw [if_pos hav] at h
          obtain ⟨recs₂, hh, hnone⟩ := ih _ (i + 1) st' (Nat.succ_ne_zero i) h
          refine ⟨loopRecord st.ev (sm a) (((sm a).bind (tbl st.ev.incident_index)).getD 3600)
              i dc a :: recs₂, ?_, ?_⟩
          · rw [hh]
            simp [List.append_assoc]
          · intro x hx
            rcases List.mem_cons.mp hx with hx | hx
            · rw [hx]
              simp [loopRecord, if_neg hi]
            · exact hnone x hx
        · rw [if_neg hav] at h
          exact ih st (i + 1) st' (Nat.succ_ne_zero i) h

theorem dispatchLoop_first_avail (tbl : ℕ → ℕ → Option ℚ) (sm : ℤ → Option ℕ)
    (r o : ℚ) (dc : ℕ) (i₀ : ℤ) (irest : List ℤ)
    (st st' : DispatchState) (pos : ℕ) (e : FireEngine)
    (ev' : FireEvent) (hist' : List DispatchRecord)
    (hev : st.ev = ev') (hhist : st.history = hist')
    (hpos : pyIdx st.engines.length i₀ = some pos)
    (hget : st.engines[pos]? = some e) (hav : e.is_available = true)
    (h : dispatchLoop tbl sm r o dc st 0 (i₀ :: irest) = some st') :
    ∃ tail, st'.history = hist' ++
        loopRecord ev' (sm i₀) (((sm i₀).bind (tbl ev'.incident_index)).getD 3600)
          0 dc i₀ :: tail ∧
      ∀ x ∈ tail, x.dispatched_vehicle_count = none := by
  subst hev hhist
  rw [dispatchLoop] at h
  simp only [hpos, hget] at h
  rw [if_pos hav] at h
  obtain ⟨recs₂, hh, hnone⟩ := dispatchLoop_records_tail tbl sm r o dc irest _ 1 st'
    one_ne_zero h
  refine ⟨recs₂, ?_, hnone⟩
  rw [hh]
  simp [List.append_assoc]

theorem dispatchLoop_errRecord (tbl : ℕ → ℕ → Option ℚ) (sm : ℤ → Option ℕ)
    (r o : ℚ) (dc : ℕ) (ids : List ℤ) :
    ∀ (st : DispatchState) (i : ℕ) (st' : DispatchState),
    dispatchLoop tbl sm r o dc st i ids = some st' →
    errRecord st'.ev = errRecord st.ev := by
  induction ids with
  | nil =>
    intro st i st' h
    rw [dispatchLoop] at h
    cases h
    rfl
  | cons a rest ih =>
    intro st i st' h
    rw [dispatchLoop] at h
    cases hpos : pyIdx st.engines.length a with
    | none =>
      simp only [hpos] at h
      exact Option.noConfusion h
    | some pos =>
      simp only [hpos] at h
      cases hget : st.engines[pos]? with
      | none =>
        simp only [hget] at h
        exact Option.noConfusion h
      | some e =>
        simp only [hget] at h
        by_cases hav : e.is_available = true
        · rw [if_pos hav] at h
          exact (ih _ (i + 1) st' h).trans rfl
        · rw [if_neg hav] at h
          exact ih st (i + 1) st' h

/-- Claim C6 (amended): the required-count field is attached to the record
built for the id at position 0 of the truncated selection, not to "the
first record appended".  In a step on a non-empty queue: if the first
truncated id refers to an available vehicle, the batch's first appended
record is its full record and carries the required count, and every later
appended record does not carry it; if the first truncated id refers to an
unavailable vehicle (it is skipped), no record appended during the step
carries the field — even when later vehicles are dispatched.  See the
counterexample for the original wording. -/
theorem fireC6 (sim : Simulator) (ids : List ℤ) (ev : FireEvent) (rest : List FireEvent)
    (res : StepResult) (hp : sim.pending_events = ev :: rest)
    (h : sim.step ids = some res) :
    ∃ recs, res.sim.dispatch_history = sim.dispatch_history ++ recs ∧
      (ids.take ev.get_required_dispatch_count = [] →
        ∀ x ∈ recs, x.dispatched_vehicle_count = none) ∧
      (∀ (i₁ : ℤ) (t : List ℤ), ids.take ev.get_required_dispatch_count = i₁ :: t →
        ∀ (pos : ℕ) (e : FireEngine),
          pyIdx (sim.advanceEngines ev).length i₁ = some pos →
          (sim.advanceEngines ev)[pos]? = some e →
          (e.is_available = true →
            ∃ tail2, recs = loopRecord ev (sim.station_mapping i₁)
                (((sim.station_mapping i₁).bind
                  (sim.event_station_times ev.incident_index)).getD 3600) 0
                ev.get_required_dispatch_count i₁ :: tail2 ∧
              ∀ x ∈ tail2, x.dispatched_vehicle_count = none) ∧
          (e.is_available = false →
            ∀ x ∈ recs, x.dispatched_vehicle_count = none)) := by
  simp only [Simulator.step, hp] at h
  cases hq : dispatchLoop sim.event_station_times sim.station_mapping
      ev.reaction_seconds ev.on_scene_seconds ev.get_required_dispatch_count
      { engines := sim.advanceEngines ev, ev := ev, rewards := [], resp_times := [],
        used_engines := [], history := sim.dispatch_history } 0
      (ids.take ev.get_required_dispatch_count) with
  | none =>
    simp only [hq] at h
    exact Option.noConfusion h
  | some st' =>
    simp only [hq] at h
    have hhist : res.sim.dispatch_history = st'.history ∨
        res.sim.dispatch_history = st'.history ++ [errRecord ev] := by
      by_cases hu : st'.used_engines = []
      · rw [if_pos hu] at h
        right
        rw [← Option.some.inj h]
        show st'.history ++ [errRecord st'.ev] = st'.history ++ [errRecord ev]
        rw [dispatchLoop_errRecord sim.event_station_times sim.station_mapping
          ev.reaction_seconds ev.on_scene_seconds ev.get_required_dispatch_count
          (ids.take ev.get_required_dispatch_count) _ 0 st' hq]
      · rw [if_neg hu] at h
        left
        rw [← Option.some.inj h]
    cases hids : ids.take ev.get_required_dispatch_count with
    | nil =>
      rw [hids, dispatchLoop] at hq
      cases hq
      rcases hhist with hh | hh
      · refine ⟨[], by rw [hh]; simp, fun _ => by simp, ?_⟩
        intro i₁ t hit
        exact absurd hit (by simp)
      · refine ⟨[errRecord ev], by rw [hh], ?_, ?_⟩
        · intro _ x hx
          rw [List.mem_singleton] at hx
          subst hx
          rfl
        · intro i₁ t hit
          exact absurd hit (by simp)
    | cons i₀ irest =>
      rw [hids] at hq
      cases hpos0 : pyIdx (sim.advanceEngines ev).length i₀ with
      | none =>
        rw [dispatchLoop] at hq
        simp only [hpos0] at hq
        exact Option.noConfusion hq
      | some pos0 =>
        cases hget0 : (sim.advanceEngines ev)[pos0]? with
        | none =>
          rw [dispatchLoop] at hq
          simp only [hpos0, hget0] at hq
          exact Option.noConfusion hq
        | some e0 =>
          by_cases hav0 : e0.is_available = true
          · obtain ⟨tail, hh, htnone⟩ := dispatchLoop_first_avail
              sim.event_station_times sim.station_mapping
              ev.reaction_seconds ev.on_scene_seconds ev.get_required_dispatch_count
              i₀ irest _ st' pos0 e0 ev sim.dispatch_history rfl rfl hpos0 hget0 hav0 hq
            rcases hhist with hh2 | hh2
            · refine ⟨_, by rw [hh2, hh], fun habs => ?_, ?_⟩
              · exact absurd habs (by simp)
              · intro i₁ t hit pos e hpos hget
                cases hit
                constructor
                · intro _
                  exact ⟨tail, rfl, htnone⟩
                · intro hfalse
                  rw [hpos0] at hpos
                  cases Option.some.inj hpos
                  rw [hget0] at hget
                  cases Option.some.inj hget
                  rw [hav0] at hfalse
                  exact absurd hfalse (by simp)
            · refine ⟨loopRecord ev (sim.station_mapping i₀)
                  (((sim.station_mapping i₀).bind
                    (sim.event_station_times ev.incident_index)).getD 3600) 0
                  ev.get_required_dispatch_count i₀ :: (tail ++ [errRecord ev]),
                ?_, fun habs => ?_, ?_⟩
              · rw [hh2, hh]
                simp [List.append_assoc]
              · exact absurd habs (by simp)
              · intro i₁ t hit pos e hpos hget
                cases hit
                constructor
                · intro _
                  refine ⟨tail ++ [errRecord ev], rfl, ?_⟩
                  intro x hx
                  rcases List.mem_append.mp hx with hx | hx
                  · exact htnone x hx
                  · rw [List.mem_singleton] at hx
                    subst hx
                    rfl
                · intro hfalse
                  rw [hpos0] at hpos
                  cases Option.some.inj hpos
                  rw [hget0] at hget
                  cases Option.some.inj hget
                  rw [hav0] at hfalse
                  exact absurd hfalse (by simp)
          · have hav0' : e0.is_available = false := by
              cases hbool : e0.is_available
              · rfl
              · exact absurd hbool hav0
            rw [dispatchLoop] at hq
            simp only [hpos0, hget0] at hq
            rw [if_neg hav0] at hq
            obtain ⟨recs₂, hh, hrnone⟩ := dispatchLoop_records_tail
              sim.event_station_times sim.station_mapping
              ev.reaction_seconds ev.on_scene_seconds ev.get_required_dispatch_count
              irest _ 1 st' one_ne_zero hq
            rcases hhist with hh2 | hh2
            · refine ⟨recs₂, hh2.trans hh, fun habs => ?_, ?_⟩
              · exact absurd habs (by simp)
              · intro i₁ t hit pos e hpos hget
                cases hit
                constructor
                · intro htrue
                  rw [hpos0] at hpos
                  cases Option.some.inj hpos
                  rw [hget0] at hget
                  cases Option.some.inj hget
                  exact absurd htrue hav0
                · intro _
                  exact hrnone
            · refine ⟨recs₂ ++ [errRecord ev], ?_, fun habs => ?_, ?_⟩
              · rw [hh2, hh]
                simp [List.append_assoc]
              · exact absurd habs (by simp)
              · intro i₁ t hit pos e hpos hget
                cases hit
                constructor
                · intro htrue
                  rw [hpos0] at hpos
                  cases Option.some.inj hpos
                  rw [hget0] at hget
                  cases Option.some.inj hget
                  exact absurd htrue hav0
                · intro _
                  intro x hx
                  rcases List.mem_append.mp hx with hx | hx
                  · exact hrnone x hx
                  · rw [List.mem_singleton] at hx
                    subst hx
                    rfl

/-- Counterexample to claim C6 as stated: a step on a two-vehicle incident
where the first selected engine is busy and the second is dispatched.  A
vehicle is dispatched (the info is the success dictionary), yet the single
— hence first — Dispatch Record appended in the step does not carry the
required-count field, because the source attaches it to enumerate index 0
of the selected list, which was skipped. -/
theorem fireC6_cex :
    ∃ res : StepResult, wSim6.step [0, 1] = some res ∧
      res.info = StepInfo.ok 0 [1] 200 [200] ∧
      res.sim.dispatch_history.map (fun x => x.dispatched_vehicle_count) = [none] :=
  ⟨_, rfl, rfl, rfl⟩

/-- Witness for claim C6 at a step whose first selected vehicle is
available and dispatched. -/
theorem fireC6_witness :
    ∃ res : StepResult, wSim10.step [0, 1] = some res ∧
      ∃ recs, res.sim.dispatch_history = wSim10.dispatch_history ++ recs ∧
        (([0, 1] : List ℤ).take wEventTwo.get_required_dispatch_count = [] →
          ∀ x ∈ recs, x.dispatched_vehicle_count = none) ∧
        (∀ (i₁ : ℤ) (t : List ℤ),
          ([0, 1] : List ℤ).take wEventTwo.get_required_dispatch_count = i₁ :: t →
          ∀ (pos : ℕ) (e : FireEngine),
            pyIdx (wSim10.advanceEngines wEventTwo).length i₁ = some pos →
            (wSim10.advanceEngines wEventTwo)[pos]? = some e →
            (e.is_available = true →
              ∃ tail2, recs = loopRecord wEventTwo (wSim10.station_mapping i₁)
                  (((wSim10.station_mapping i₁).bind
                    (wSim10.event_station_times wEventTwo.incident_index)).getD 3600) 0
                  wEventTwo.get_required_dispatch_count i₁ :: tail2 ∧
                ∀ x ∈ tail2, x.dispatched_vehicle_count = none) ∧
            (e.is_available = false →
              ∀ x ∈ recs, x.dispatched_vehicle_count = none)) :=
  ⟨_, rfl, fireC6 wSim10 [0, 1] wEventTwo [] _ rfl rfl⟩

theorem dispatchLoop_evKey (tbl : ℕ → ℕ → Option ℚ) (sm : ℤ → Option ℕ)
    (r o : ℚ) (dc : ℕ) (ids : List ℤ) :
    ∀ (st : DispatchState) (i : ℕ) (st' : DispatchState),
    dispatchLoop tbl sm r o dc st i ids = some st' →
    evKey st'.ev = evKey st.ev := by
  induction ids with
  | nil =>
    intro st i st' h
    rw [dispatchLoop] at h
    cases h
    rfl
  | cons a rest ih =>
    intro st i st' h
    rw [dispatchLoop] at h
    cases hpos : pyIdx st.engines.length a with
    | none =>
      simp only [hpos] at h
      exact Option.noConfusion h
    | some pos =>
      simp only [hpos] at h
      cases hget : st.engines[pos]? with
      | none =>
        simp only [hget] at h
        exact Option.noConfusion h
      | some e =>
        simp only [hget] at h
        by_cases hav : e.is_available = true
        · rw [if_pos hav] at h
          exact (ih _ (i + 1) st' h).trans rfl
        · rw [if_neg hav] at h
          exact ih st (i + 1) st' h

theorem step_queue (sim : Simulator) (ids : List ℤ) (res : StepResult)
    (h : sim.step ids = some res) :
    (res.sim.pending_events = sim.pending_events ∧
      res.sim.finished_events = sim.finished_events) ∨
    (∃ ev rest2, sim.pending_events = ev :: rest2 ∧ res.sim.pending_events = rest2 ∧
      (res.sim.finished_events = sim.finished_events ∨
        ∃ ev', evKey ev' = evKey ev ∧
          res.sim.finished_events = sim.finished_events ++ [ev'])) := by
  cases hp : sim.pending_events with
  | nil =>
    simp only [Simulator.step, hp] at h
    have := Option.some.inj h
    subst this
    exact Or.inl ⟨rfl, rfl⟩
  | cons ev rest2 =>
    simp only [Simulator.step, hp] at h
    cases hq : dispatchLoop sim.event_station_times sim.station_mapping
        ev.reaction_seconds ev.on_scene_seconds ev.get_required_dispatch_count
        { engines := sim.advanceEngines ev, ev := ev, rewards := [], resp_times := [],
          used_engines := [], history := sim.dispatch_history } 0
        (ids.take ev.get_required_dispatch_count) with
    | none =>
      simp only [hq] at h
      exact Option.noConfusion h
    | some st' =>
      simp only [hq] at h
      right
      refine ⟨ev, rest2, rfl, ?_⟩
      by_cases hu : st'.used_engines = []
      · rw [if_pos hu] at h
        have := Option.some.inj h
        subst this
        exact ⟨rfl, Or.inl rfl⟩
      · rw [if_neg hu] at h
        have := Option.some.inj h
        subst this
        exact ⟨rfl, Or.inr ⟨st'.ev,
          dispatchLoop_evKey sim.event_station_times sim.station_mapping
            ev.reaction_seconds ev.on_scene_seconds ev.get_required_dispatch_count
            (ids.take ev.get_required_dispatch_count) _ 0 st' hq, rfl⟩⟩

theorem runSteps_trace (acts : List (List ℤ)) : ∀ (sim sim' : Simulator),
    runSteps sim acts = some sim' →
    ∃ k, sim'.pending_events = sim.pending_events.drop k ∧
      ∃ extra, sim'.finished_events = sim.finished_events ++ extra ∧
        List.Sublist (extra.map evKey) ((sim.pending_events.take k).map evKey) := by
  induction acts with
  | nil =>
    intro sim sim' h
    rw [runSteps] at h
    cases h
    exact ⟨0, by simp, [], by simp, by simp⟩
  | cons a rest ih =>
    intro sim sim' h
    rw [runSteps] at h
    cases hstep : sim.step a with
    | none =>
      simp only [hstep] at h
      exact Option.noConfusion h
    | some res =>
      simp only [hstep] at h
      obtain ⟨k, hpend, extra, hfin, hsub⟩ := ih res.sim sim' h
      rcases step_queue sim a res hstep with ⟨hpq, hfq⟩ | ⟨ev, rest2, hpe, hpq, hfq⟩
      · refine ⟨k, by rw [hpend, hpq], extra, by rw [hfin, hfq], ?_⟩
        rw [hpq] at hsub
        exact hsub
      · rw [hpq] at hpend hsub
        rcases hfq with hfq | ⟨ev', hkey, hfq⟩
        · refine ⟨k + 1, ?_, extra, by rw [hfin, hfq], ?_⟩
          · rw [hpend, hpe]
            rfl
          · rw [hpe, List.take_succ_cons, List.map_cons]
            exact hsub.cons _
        · refine ⟨k + 1, ?_, ev' :: extra, ?_, ?_⟩
          · rw [hpend, hpe]
            rfl
          · rw [hfin, hfq]
            simp
          · rw [hpe, List.take_succ_cons, List.map_cons, List.map_cons, hkey]
            exact hsub.cons₂ _

/-- Claim C9: after a reset with an incident set, across every sequence of
step calls the queue only loses elements from the front — after any run
the remaining queue is `drop k` of the timestamp-sorted initial queue, so
incidents are popped exactly once each, in non-decreasing timestamp order
(the popped prefix `take k` is pairwise ordered), they are never
re-inserted, and the finished list consists of (response-marked copies
of) popped incidents in pop order — the rest are lost. -/
theorem fireC9 (base : Simulator) (rows : List FireEvent) (acts : List (List ℤ))
    (sim' : Simulator) (h : runSteps (base.resetWith rows) acts = some sim') :
    ∃ k, sim'.pending_events = (generate_events rows).drop k ∧
      List.Pairwise tsLE ((generate_events rows).take k) ∧
      List.Sublist (sim'.finished_events.map evKey) (((generate_events rows).take k).map evKey) := by
  obtain ⟨k, hpend, extra, hfin, hsub⟩ := runSteps_trace acts (base.resetWith rows) sim' h
  refine ⟨k, hpend, ?_, ?_⟩
  · have hsorted : List.Pairwise tsLE (generate_events rows) :=
      List.sorted_insertionSort tsLE rows
    exact hsorted.sublist (List.take_sublist _ _)
  · have : sim'.finished_events = extra := by
      rw [hfin]
      rfl
    rw [this]
    exact hsub

/-- Witness for claim C9: a reset with two unsorted incidents followed by
two steps (the first dispatches the only engine, the second finds it busy
and loses the incident). -/
theorem fireC9_witness :
    ∃ sim' : Simulator, runSteps (wSim1.resetWith wRows) [[0], [0]] = some sim' ∧
      ∃ k, sim'.pending_events = (generate_events wRows).drop k ∧
        List.Pairwise tsLE ((generate_events wRows).take k) ∧
        List.Sublist (sim'.finished_events.map evKey) (((generate_events wRows).take k).map evKey) :=
  ⟨_, rfl, fireC9 wSim1 wRows [[0], [0]] _ rfl⟩

/-! ### Theorems: availability ranker -/

theorem get_sorted_perm (sim : Simulator) (node : Option (ℚ × ℚ))
    (hp : sim.pending_events ≠ []) :
    (sim.get_sorted_available_engines node).Perm
      ((sim.engines.filter (fun e => e.is_available)).map (fun e => e.id)) := by
  unfold Simulator.get_sorted_available_engines
  by_cases hfe : sim.engines.filter (fun e => e.is_available) = []
  · rw [if_pos hfe, hfe]
    simp
  · rw [if_neg hfe]
    cases hpe : sim.pending_events with
    | nil => exact absurd hpe hp
    | cons ev rest =>
      unfold Simulator.rankerTimes
      rw [hpe]
      refine ((List.perm_insertionSort rankLE _).map _).trans ?_
      rw [List.map_map]
      exact List.Perm.refl _

/-- Claim C4: on a non-empty queue the Availability Ranker returns exactly
the ids of the currently available vehicles (as a permutation of the
availability filter), ordered by Python's ascending tuple key
(travel time with failed lookups as plus-infinity, dispatch count, id) —
the triple list it sorts is `Sorted` under that lexicographic key; the
result is empty when no vehicle is available; and it is a deterministic
function of the simulator state (the `event_node` argument is ignored by
the source). -/
theorem fireC4 (sim : Simulator) (node : Option (ℚ × ℚ))
    (hp : sim.pending_events ≠ []) :
    (sim.get_sorted_available_engines node).Perm
      ((sim.engines.filter (fun e => e.is_available)).map (fun e => e.id)) ∧
    List.Sorted rankLE (List.insertionSort rankLE sim.rankerTimes) ∧
    ((sim.engines.filter (fun e => e.is_available)) = [] →
      sim.get_sorted_available_engines node = []) ∧
    (∀ node' : Option (ℚ × ℚ),
      sim.get_sorted_available_engines node = sim.get_sorted_available_engines node') := by
  refine ⟨get_sorted_perm sim node hp,
    List.sorted_insertionSort rankLE sim.rankerTimes, ?_, fun node' => rfl⟩
  intro hfe
  unfold Simulator.get_sorted_available_engines
  rw [if_pos hfe]

/-- Witness for claim C4 on a concrete two-engine state. -/
theorem fireC4_witness :
    (wSim10.get_sorted_available_engines none).Perm
      ((wSim10.engines.filter (fun e => e.is_available)).map (fun e => e.id)) :=
  (fireC4 wSim10 none (by simp [wSim10, wSim1])).1

/-! ### Theorems: feature encoder -/

theorem padTrim_eq (dim : ℕ) (l : List ℚ) :
    padTrim dim l =
      if dim ≤ l.length then l.take dim
      else l ++ List.replicate (dim - l.length) 0 := by
  unfold padTrim
  rcases lt_trichotomy dim l.length with h | h | h
  · rw [if_pos h, if_pos h.le]
  · subst h
    rw [if_neg (lt_irrefl _), if_neg (lt_irrefl _), if_pos le_rfl, List.take_length]
  · rw [if_neg (by omega), if_pos h, if_neg (by omega)]

theorem padTrim_length (dim : ℕ) (l : List ℚ) : (padTrim dim l).length = dim := by
  unfold padTrim
  split_ifs with h1 h2
  · rw [List.length_take]
    omega
  · rw [List.length_append, List.length_replicate]
    omega
  · omega

theorem mapM_option_some {α β : Type} (f : α → Option β) (l : List α)
    (h : ∀ x ∈ l, ∃ y, f x = some y) : ∃ ys, l.mapM f = some ys := by
  induction l with
  | nil => exact ⟨[], rfl⟩
  | cons a t ih =>
    obtain ⟨y, hy⟩ := h a (List.mem_cons_self a t)
    obtain ⟨ys, hys⟩ := ih (fun x hx => h x (List.mem_cons_of_mem a hx))
    refine ⟨y :: ys, ?_⟩
    rw [List.mapM_cons, hy, hys]
    rfl

theorem engineSlot_some (sim : Simulator) (sorted_ids : List ℤ) (idx : ℕ)
    (hsub : ∀ sid ∈ sorted_ids, 0 ≤ sid ∧ sid < (sim.engines.length : ℤ)) :
    ∃ r, engineSlot sim sorted_ids idx = some r := by
  unfold engineSlot
  by_cases h1 : idx < sorted_ids.length
  · rw [if_pos h1, List.getElem?_eq_getElem h1]
    obtain ⟨hle, hlt⟩ := hsub _ (List.getElem_mem h1)
    obtain ⟨pos, hpos, hplt⟩ := pyIdx_valid _ _ (by omega) hlt
    simp only [hpos, List.getElem?_eq_getElem hplt]
    exact ⟨_, rfl⟩
  · rw [if_neg h1]
    by_cases h2 : idx < sim.engines.length
    · rw [if_pos h2, List.getElem?_eq_getElem h2]
      exact ⟨_, rfl⟩
    · rw [if_neg h2]
      exact ⟨_, rfl⟩

theorem engineBlocks_some (sim : Simulator) (eventHead : Option FireEvent)
    (sorted_ids : List ℤ)
    (hsub : ∀ sid ∈ sorted_ids, 0 ≤ sid ∧ sid < (sim.engines.length : ℤ)) :
    ∃ bs, engineBlocks sim eventHead sorted_ids = some bs := by
  unfold engineBlocks
  refine mapM_option_some _ _ (fun idx _ => ?_)
  obtain ⟨r, hr⟩ := engineSlot_some sim sorted_ids idx hsub
  refine ⟨(fun eng? =>
    match eng? with
    | some eng => engineFeatures sim eventHead sim.config.obs_engine_count idx eng
    | none => [0, 0, 0] ++ List.replicate 5 0) r, ?_⟩
  rw [hr]
  rfl

theorem obs_raw_some (sim : Simulator)
    (hids : ∀ e ∈ sim.engines, 0 ≤ e.id ∧ e.id < (sim.engines.length : ℤ)) :
    ∃ raw, obs_raw sim = some raw := by
  cases hph : sim.pending_events.head? with
  | none =>
    obtain ⟨bs, hbs⟩ := engineBlocks_some sim none [] (by simp)
    simp only [obs_raw, hph, hbs]
    exact ⟨_, rfl⟩
  | some ev =>
    have hpne : sim.pending_events ≠ [] := by
      intro hc
      rw [hc] at hph
      exact Option.noConfusion hph
    have hsub : ∀ sid ∈ sim.get_sorted_available_engines (some ev.graph_node),
        0 ≤ sid ∧ sid < (sim.engines.length : ℤ) := by
      intro sid hsid
      rw [(get_sorted_perm sim (some ev.graph_node) hpne).mem_iff] at hsid
      obtain ⟨e, hef, hid⟩ := List.mem_map.mp hsid
      rw [← hid]
      exact hids e (List.mem_of_mem_filter hef)
    obtain ⟨bs, hbs⟩ := engineBlocks_some sim (some ev)
      (sim.get_sorted_available_engines (some ev.graph_node)) hsub
    simp only [obs_raw, hph, hbs]
    exact ⟨_, rfl⟩

/-- Claim C5: whenever the fleet is well-indexed (each engine's id is a
valid index into the fleet list, as `_init_engines` guarantees), the
Feature Encoder returns a vector of exactly the configured output
dimension `obs_dim`, for any number of available vehicles, an empty or
non-empty queue and any fleet size relative to the per-vehicle window:
the raw concatenation is truncated to its first `obs_dim` values when
longer and zero-padded at the end when shorter. -/
theorem fireC5 (sim : Simulator)
    (hids : ∀ e ∈ sim.engines, 0 ≤ e.id ∧ e.id < (sim.engines.length : ℤ)) :
    ∃ raw, obs_raw sim = some raw ∧
      sim.get_observation = some
        (if sim.config.obs_dim ≤ raw.length then raw.take sim.config.obs_dim
         else raw ++ List.replicate (sim.config.obs_dim - raw.length) 0) ∧
      ∀ v, sim.get_observation = some v → v.length = sim.config.obs_dim := by
  obtain ⟨raw, hraw⟩ := obs_raw_some sim hids
  refine ⟨raw, hraw, ?_, ?_⟩
  · unfold Simulator.get_observation
    rw [hraw, Option.map_some', padTrim_eq]
  · intro v hv
    unfold Simulator.get_observation at hv
    rw [hraw, Option.map_some'] at hv
    rw [← Option.some.inj hv]
    exact padTrim_length _ _

/-- Witness for claim C5 on a concrete two-engine, one-incident state. -/
theorem fireC5_witness :
    ∃ v, wSim1.get_observation = some v ∧ v.length = wSim1.config.obs_dim := by
  obtain ⟨raw, hraw, hobs, hlen⟩ := fireC5 wSim1 (by decide)
  exact ⟨_, hobs, hlen _ hobs⟩

end FireDispatch
